import Mathlib

/-!
Shallow embedding of the procedural city-block generator core of this
repository (the `8/graph.js` / `8/utils.js` family) over exact rational
arithmetic.  JavaScript IEEE doubles are modelled by `ℚ`; the float literals
`1e-6`, `1e-8`, `1e-10`, `1e-12` of the source become the exact rationals
below.  `Math.sqrt` / `Math.hypot` (irrational in general) are modelled by the
computable `ratSqrt`, which is exact on perfect rational squares; every
concrete evaluation below only exercises it on perfect squares.
-/

attribute [local semireducible] Rat.add Rat.mul Rat.inv Rat.sub

/-- A 2D point with rational coordinates.  For `utils.js` code it models the
`(x, y)` components of a `Vector3` whose `z` is always 0; for `graph.js` code
(which geometrically works in the `(x, z)` plane of `Vector3`, `y` being
always 0) the field `y` models the JavaScript `z` component. -/
structure Pt where
  x : ℚ
  y : ℚ
deriving DecidableEq, Repr

instance : Inhabited Pt := ⟨⟨0, 0⟩⟩

/-- The float literal `1e-6` of the source. -/
def eps6 : ℚ := 1 / 1000000

/-- The float literal `1e-8` of the source. -/
def eps8 : ℚ := 1 / 100000000

/-- The float literal `1e-10` of the source. -/
def eps10 : ℚ := 1 / 10000000000

/-- The float literal `1e-12` of the source. -/
def eps12 : ℚ := 1 / 1000000000000

/-- Integer Newton iteration for the square root, with explicit structural
fuel (the iteration strictly decreases the candidate, so the fuel bound is
never reached before convergence). -/
def isqrtGo (n : ℕ) : ℕ → ℕ → ℕ
  | 0, x => x
  | fuel + 1, x =>
    let y := (x + n / x) / 2
    if y < x then isqrtGo n fuel y else x

/-- Floor integer square root by Newton iteration (structurally recursive, so
concrete values evaluate inside the kernel). -/
def isqrt (n : ℕ) : ℕ :=
  if n ≤ 1 then n else isqrtGo n n (n / 2 + 1)

/-- Computable model of `Math.sqrt` on rationals: exact on perfect rational
squares (`ratSqrt ((a/b)^2) = a/b` for `a/b ≥ 0`), a floor-like rational
approximation elsewhere; non-positive inputs map to 0. -/
def ratSqrt (q : ℚ) : ℚ :=
  if q ≤ 0 then 0 else (isqrt (q.num.toNat * q.den) : ℚ) / (q.den : ℚ)

/-- Stable insertion of `x` into a sorted list: `x` goes after every element
`y` with `le y x`, so ties keep their original relative order. -/
def insertSorted (le : α → α → Bool) (x : α) : List α → List α
  | [] => [x]
  | y :: ys => if le y x then y :: insertSorted le x ys else x :: y :: ys

/-- Stable sort by repeated insertion.  The JavaScript `Array.sort` is
required to be stable, and all stable sorts agree for a total transitive
comparator, so this models the sorts of the source exactly. -/
def stableSort (le : α → α → Bool) (l : List α) : List α :=
  l.foldl (fun acc x => insertSorted le x acc) []

/-- Model of `Math.hypot dx dy`. -/
def hypotQ (dx dy : ℚ) : ℚ := ratSqrt (dx * dx + dy * dy)

namespace PolygonInset

/-- Embedding of `PolygonInset.signedArea` (utils.js): the shoelace sum over
consecutive vertex pairs (wrapping), divided by 2. -/
def signedArea (pts : List Pt) : ℚ :=
  ((List.range pts.length).foldl (fun acc i =>
    let p := pts.getD i default
    let q := pts.getD ((i + 1) % pts.length) default
    acc + (p.x * q.y - q.x * p.y)) 0) / 2

/-- Embedding of `PolygonInset.lineIntersection` (utils.js): intersect two
infinite lines `p1→p2` and `p3→p4`; `none` when the determinant is below
`1e-10` in absolute value. -/
def lineIntersection (p1 p2 p3 p4 : Pt) : Option Pt :=
  let d1x := p2.x - p1.x
  let d1y := p2.y - p1.y
  let d2x := p4.x - p3.x
  let d2y := p4.y - p3.y
  let denom := d1x * d2y - d1y * d2x
  if |denom| < eps10 then none
  else
    let t := ((p3.x - p1.x) * d2y - (p3.y - p1.y) * d2x) / denom
    some ⟨p1.x + t * d1x, p1.y + t * d1y⟩

/-- Embedding of `PolygonInset.segmentIntersection` (utils.js): intersect two
finite segments, requiring both parameters strictly inside `(1e-6, 1 - 1e-6)`. -/
def segmentIntersection (p1 p2 p3 p4 : Pt) : Option Pt :=
  let d1x := p2.x - p1.x
  let d1y := p2.y - p1.y
  let d2x := p4.x - p3.x
  let d2y := p4.y - p3.y
  let denom := d1x * d2y - d1y * d2x
  if |denom| < eps10 then none
  else
    let t := ((p3.x - p1.x) * d2y - (p3.y - p1.y) * d2x) / denom
    let u := ((p3.x - p1.x) * d1y - (p3.y - p1.y) * d1x) / denom
    if eps6 < t ∧ t < 1 - eps6 ∧ eps6 < u ∧ u < 1 - eps6 then
      some ⟨p1.x + t * d1x, p1.y + t * d1y⟩
    else none

/-- The scan of `PolygonInset.resolveSelfIntersections` (utils.js): the first
pair of non-adjacent edges `(i, i+1)`/`(j, j+1)` (outer loop `i` ascending,
inner loop `j` from `i+2`, skipping the wrap-adjacent pair `(j+1) % n = i`)
whose segments cross, together with the crossing point. -/
def findCrossing (pts : List Pt) : Option (ℕ × ℕ × Pt) :=
  let n := pts.length
  (List.range n).findSome? (fun i =>
    (List.range n).findSome? (fun j =>
      if i + 2 ≤ j ∧ (j + 1) % n ≠ i then
        (segmentIntersection (pts.getD i default) (pts.getD ((i + 1) % n) default)
            (pts.getD j default) (pts.getD ((j + 1) % n) default)).map
          (fun p => (i, j, p))
      else none))

/-- Sub-loop A of the resolver: `pt → pts[i+1] → … → pts[j]`. -/
def loopA (pts : List Pt) (i j : ℕ) (p : Pt) : List Pt :=
  p :: ((pts.drop (i + 1)).take (j - i))

/-- Sub-loop B of the resolver: `pt → pts[j+1] → … → pts[i]` (wrapping). -/
def loopB (pts : List Pt) (i j : ℕ) (p : Pt) : List Pt :=
  p :: (pts.drop (j + 1) ++ pts.take (i + 1))

/-- The sub-loop selection of `PolygonInset.resolveSelfIntersections`
(utils.js): keep the sub-loop with positive signed area; when both are
positive keep the one with the larger area (`areaA >= areaB` prefers loop A);
when both are non-positive there is nothing to keep. -/
def keepLoop (aA aB : ℚ) (lA lB : List Pt) : Option (List Pt) :=
  if 0 < aA ∧ 0 < aB then some (if aB ≤ aA then lA else lB)
  else if 0 < aA then some lA
  else if 0 < aB then some lB
  else none

/-- The iteration loop of `PolygonInset.resolveSelfIntersections` (utils.js):
`for (iter = 0; iter < pts.length * 2; iter++)`, where the bound re-reads the
current length of `pts`.  Each pass returns `none` when fewer than 3 vertices
remain, returns the current polygon when no crossing is found, and otherwise
replaces the polygon by the sub-loop chosen by `keepLoop` (or returns `none`
when both sub-loop areas are non-positive).  The first argument is structural
fuel: the kept sub-loop is never longer than the polygon while `iter` grows
by one per pass, so with the fuel `resolveSelfIntersections` supplies, fuel
exhaustion coincides exactly with the loop guard `iter < pts.length * 2`
turning false, and both exits return the current polygon. -/
def resolveLoop : ℕ → List Pt → ℕ → Option (List Pt)
  | 0, pts, _ => some pts
  | fuel + 1, pts, iter =>
    if iter < pts.length * 2 then
      if pts.length < 3 then none
      else
        match findCrossing pts with
        | none => some pts
        | some (i, j, p) =>
          match keepLoop (signedArea (loopA pts i j p)) (signedArea (loopB pts i j p))
              (loopA pts i j p) (loopB pts i j p) with
          | none => none
          | some nxt => resolveLoop fuel nxt (iter + 1)
    else some pts

/-- Embedding of `PolygonInset.resolveSelfIntersections` (utils.js). -/
def resolveSelfIntersections (poly : List Pt) : Option (List Pt) :=
  resolveLoop (poly.length * 2 + 1) poly 0

/-- Embedding of `PolygonInset.pointInPolygon` (utils.js): the ray-casting
parity test, iterating `i` over the vertices with `j` the predecessor index. -/
def pointInPolygon (pt : Pt) (poly : List Pt) : Bool :=
  (List.range poly.length).foldl (fun inside i =>
    let a := poly.getD i default
    let b := poly.getD ((i + poly.length - 1) % poly.length) default
    if (decide (pt.y < a.y) != decide (pt.y < b.y)) &&
        decide (pt.x < (b.x - a.x) * (pt.y - a.y) / (b.y - a.y) + a.x)
    then !inside else inside) false

/-- The squared length of edge `i` of the polygon (the quantity
`closestPointOnPolygon` compares against `1e-12`). -/
def edgeLenSq (poly : List Pt) (i : ℕ) : ℚ :=
  let a := poly.getD i default
  let b := poly.getD ((i + 1) % poly.length) default
  (b.x - a.x) * (b.x - a.x) + (b.y - a.y) * (b.y - a.y)

/-- One edge of the scan of `PolygonInset.closestPointOnPolygon` (utils.js):
skip a degenerate edge (squared length below `1e-12`), otherwise project the
point on the edge with the parameter clamped to `[0, 1]` and keep the
candidate with the strictly smaller squared distance. -/
def closestStep (pt : Pt) (poly : List Pt) (best : Option (ℚ × Pt)) (i : ℕ) :
    Option (ℚ × Pt) :=
  let a := poly.getD i default
  let b := poly.getD ((i + 1) % poly.length) default
  let dx := b.x - a.x
  let dy := b.y - a.y
  if edgeLenSq poly i < eps12 then best
  else
    let t := max 0 (min 1 (((pt.x - a.x) * dx + (pt.y - a.y) * dy) / edgeLenSq poly i))
    let px := a.x + t * dx
    let py := a.y + t * dy
    let d := (pt.x - px) * (pt.x - px) + (pt.y - py) * (pt.y - py)
    match best with
    | none => some (d, Pt.mk px py)
    | some (bd, _) => if d < bd then some (d, Pt.mk px py) else best

/-- Embedding of `PolygonInset.closestPointOnPolygon` (utils.js): project the
point on every non-degenerate edge (squared length at least `1e-12`), clamp
the parameter to `[0, 1]`, and keep the projection with the smallest squared
distance.  Returns `none` when every edge is degenerate (the JavaScript
function returns `null` there). -/
def closestPointOnPolygon (pt : Pt) (poly : List Pt) : Option Pt :=
  ((List.range poly.length).foldl (closestStep pt poly) none).map Prod.snd

/-- Step 1 of `PolygonInset.shrink` (utils.js): each edge of the (already
CCW-normalized) polygon moved inward by `offset` along its inward normal
`(-dy, dx) / len`; `none` stands for a degenerate edge (`len < 1e-12`). -/
def offsetEdges (poly : List Pt) (offset : ℚ) : List (Option (Pt × Pt)) :=
  (List.range poly.length).map (fun i =>
    let j := (i + 1) % poly.length
    let a := poly.getD i default
    let b := poly.getD j default
    let dx := b.x - a.x
    let dy := b.y - a.y
    let len := hypotQ dx dy
    if len < eps12 then none
    else
      let nx := (-dy / len) * offset
      let ny := (dx / len) * offset
      some (Pt.mk (a.x + nx) (a.y + ny), Pt.mk (b.x + nx) (b.y + ny)))

/-- Step 2 of `PolygonInset.shrink` (utils.js): intersect consecutive offset
edges; apply the miter limit (emit the two-point bevel when the miter point is
farther than `offset * miterLimit` from the original vertex), fall back to the
midpoint for parallel offset edges, and to the surviving endpoint when one of
the two edges is degenerate. -/
def rawVertices (poly : List Pt) (offset miterLimit : ℚ) : List Pt :=
  let n := poly.length
  let oe := offsetEdges poly offset
  (List.range n).foldl (fun acc i =>
    let curr := oe.getD i none
    let next := oe.getD ((i + 1) % n) none
    match curr, next with
    | none, none => acc
    | some c, none => acc ++ [c.2]
    | none, some nx => acc ++ [nx.1]
    | some c, some nx =>
      match lineIntersection c.1 c.2 nx.1 nx.2 with
      | some pt =>
        let orig := poly.getD ((i + 1) % n) default
        let dist := hypotQ (pt.x - orig.x) (pt.y - orig.y)
        if offset * miterLimit < dist then acc ++ [c.2, nx.1] else acc ++ [pt]
      | none => acc ++ [Pt.mk ((c.2.x + nx.1.x) / 2) ((c.2.y + nx.1.y) / 2)]) []

/-- The CCW normalization of `PolygonInset.shrink` (utils.js): reverse the
vertex order unless the signed area is already positive. -/
def normCCW (vertices : List Pt) : List Pt :=
  if 0 < signedArea vertices then vertices else vertices.reverse

/-- Stages 0 to 3 of `PolygonInset.shrink` (utils.js): input-size and area
pre-checks, CCW normalization, offset-edge construction, and self-intersection
resolution — everything up to (but excluding) the area validation of step 4. -/
def shrinkCandidate (vertices : List Pt) (offset miterLimit : ℚ) : Option (List Pt) :=
  if vertices.length < 3 then none
  else
    let area := signedArea vertices
    if |area| < eps8 then none
    else
      let raw := rawVertices (normCCW vertices) offset miterLimit
      if raw.length < 3 then none
      else resolveSelfIntersections raw

/-- Step 5 of `PolygonInset.shrink` (utils.js) for a single vertex: keep the
point when the ray-casting test classifies it as inside, otherwise replace it
by its closest point on the polygon boundary.  When `closestPointOnPolygon`
finds no edge (all degenerate) the JavaScript code stores `null` in the output
array; that dead branch is modelled by keeping the point. -/
def clampPoint (poly : List Pt) (p : Pt) : Pt :=
  if pointInPolygon p poly then p
  else
    match closestPointOnPolygon p poly with
    | some c => c
    | none => p

/-- Embedding of `PolygonInset.shrink` (utils.js): pre-checks, CCW
normalization, offset edges with miter limit, self-intersection resolution
(all via `shrinkCandidate`), then the area validation of step 4, the clamping
pass of step 5, and the final winding restoration. -/
def shrink (vertices : List Pt) (offset miterLimit : ℚ) : Option (List Pt) :=
  if vertices.length < 3 then none
  else
    let area := signedArea vertices
    if |area| < eps8 then none
    else
      match shrinkCandidate vertices offset miterLimit with
      | none => none
      | some result0 =>
        if result0.length < 3 then none
        else
          let newArea := signedArea result0
          if newArea ≤ 0 ∨ |area| ≤ newArea then none
          else
            let result := result0.map (clampPoint (normCCW vertices))
            some (if 0 < area then result else result.reverse)

end PolygonInset

namespace GeometryUtils

/-- An intersection result of `getCoplanarSegmentIntersection` (utils.js): the
parametric distance `t` along the first segment and the intersection point. -/
structure SegHit where
  distance : ℚ
  point : Pt
deriving DecidableEq, Repr

/-- The determinant `r × s` of the two-line parametric system of
`getCoplanarSegmentIntersection` (utils.js), with `r = end1 - start1` and
`s = end2 - start2`. -/
def segDet (start1 end1 start2 end2 : Pt) : ℚ :=
  (end1.x - start1.x) * (end2.y - start2.y) - (end1.y - start1.y) * (end2.x - start2.x)

/-- The parameter `t` along the first segment: `(q - p) × s / (r × s)`. -/
def segT (start1 end1 start2 end2 : Pt) : ℚ :=
  ((start2.x - start1.x) * (end2.y - start2.y) -
    (start2.y - start1.y) * (end2.x - start2.x)) / segDet start1 end1 start2 end2

/-- The parameter `u` along the second segment: `(q - p) × r / (r × s)`. -/
def segU (start1 end1 start2 end2 : Pt) : ℚ :=
  ((start2.x - start1.x) * (end1.y - start1.y) -
    (start2.y - start1.y) * (end1.x - start1.x)) / segDet start1 end1 start2 end2

/-- Embedding of `getCoplanarSegmentIntersection` (utils.js): solve the
two-line parametric system; `none` when the determinant `r × s` is below
`1e-6` in absolute value, or when either parameter leaves `[0, 1]` (bounds
widened by `1e-6` when endpoints are included, narrowed by `1e-6` when they
are excluded); otherwise the hit point together with the parameter `t` along
the first segment. -/
def getCoplanarSegmentIntersection (start1 end1 start2 end2 : Pt)
    (includeEndPoints : Bool) : Option SegHit :=
  if |segDet start1 end1 start2 end2| < eps6 then none
  else
    let t := segT start1 end1 start2 end2
    let u := segU start1 end1 start2 end2
    let lower := if includeEndPoints then -eps6 else eps6
    let upper := if includeEndPoints then 1 + eps6 else 1 - eps6
    if lower ≤ t ∧ t ≤ upper ∧ lower ≤ u ∧ u ≤ upper then
      some ⟨t, Pt.mk (start1.x + t * (end1.x - start1.x))
        (start1.y + t * (end1.y - start1.y))⟩
    else none

end GeometryUtils

namespace Extractor

/-- A wedge of `GraphRegionExtractor` (utils.js): previous vertex `u`, pivot
`v`, next vertex `w`; its lookup key is the pair `(u, v)`. -/
structure Wedge where
  u : ℕ
  v : ℕ
  w : ℕ
deriving DecidableEq, Repr

instance : Inhabited Wedge := ⟨⟨0, 0, 0⟩⟩

/-- Coarse classification of the direction vector by the value of
`Math.atan2 d.y d.x` in `(-π, π]`: 0 for angles in `(-π, 0)`, 1 for angle 0
(including the zero vector, since `atan2 0 0 = 0`), 2 for angles in `(0, π)`,
3 for angle π. -/
def angClass (d : Pt) : ℕ :=
  if d.y < 0 then 0
  else if d.y = 0 ∧ 0 ≤ d.x then 1
  else if 0 < d.y then 2
  else 3

/-- The 2D cross product. -/
def cross2 (a b : Pt) : ℚ := a.x * b.y - a.y * b.x

/-- Exact order-embedding of the comparison of `Math.atan2` values used to
sort neighbor directions: first by half-plane class, then (inside one open
half-plane, where angular differences are below π) by the sign of the cross
product. -/
def angLE (a b : Pt) : Bool :=
  decide (angClass a < angClass b) ||
    (decide (angClass a = angClass b) && decide (0 ≤ cross2 a b))

/-- The adjacency list of vertex `i` built by `runPhaseOne` (utils.js): for
each undirected edge `(u, v)` in input order, `v` is appended to the list of
`u` and `u` to the list of `v`. -/
def neighbors (edges : List (ℕ × ℕ)) (i : ℕ) : List ℕ :=
  edges.foldl (fun acc e =>
    let acc2 := if e.1 = i then acc ++ [e.2] else acc
    if e.2 = i then acc2 ++ [e.1] else acc2) []

/-- The neighbors of vertex `i` sorted by ascending polar angle of the
direction from `i` to the neighbor (stable sort, matching the JavaScript
stable `Array.sort` on `a.angle - b.angle`). -/
def sortedNeighbors (vertices : List Pt) (edges : List (ℕ × ℕ)) (i : ℕ) : List ℕ :=
  let p := vertices.getD i default
  (stableSort (fun a b => angLE a.2 b.2)
    ((neighbors edges i).map (fun v =>
      (v, Pt.mk ((vertices.getD v default).x - p.x)
        ((vertices.getD v default).y - p.y))))).map Prod.fst

/-- The wedges around pivot `i`: consecutive (wrapping) pairs of the
angle-sorted neighbor cycle. -/
def wedgesAt (vertices : List Pt) (edges : List (ℕ × ℕ)) (i : ℕ) : List Wedge :=
  let sn := sortedNeighbors vertices edges i
  (List.range sn.length).map (fun k =>
    Wedge.mk (sn.getD k 0) i (sn.getD ((k + 1) % sn.length) 0))

/-- Embedding of `GraphRegionExtractor.runPhaseOne` (utils.js): all wedges, in
pivot-vertex order (the JavaScript `Map` iterates in insertion order, which is
vertex-index order). -/
def runPhaseOne (vertices : List Pt) (edges : List (ℕ × ℕ)) : List Wedge :=
  (List.range vertices.length).foldl (fun acc i => acc ++ wedgesAt vertices edges i) []

/-- The wedge lookup map of `runPhaseTwo` (utils.js), keyed by `(u, v)`.  The
JavaScript `Map` is filled by one `set` per wedge in order, so a later wedge
with the same key overwrites an earlier one: lookup returns the index of the
last wedge with the given key. -/
def lookupWedge (wedges : List Wedge) (k : ℕ × ℕ) : Option ℕ :=
  (List.range wedges.length).foldl (fun acc idx =>
    let w := wedges.getD idx default
    if w.u = k.1 ∧ w.v = k.2 then some idx else acc) none

/-- One face walk of `runPhaseTwo` (utils.js), starting from wedge `startIdx`:
mark the current wedge used, append its pivot to the face path, and look up
the wedge keyed by `(v, w)`; a missing key logs a broken-topology error and
aborts this walk (the partial path is kept), reaching the start wedge closes
the cycle.  The walk state is `(used flags, face path, error-log count)`.
The fuel argument models the unbounded JavaScript `while` loop; `none` on
fuel exhaustion corresponds to a non-terminating walk, which cannot happen
with fuel `wedges.length + 1` because a terminating JavaScript walk never
revisits a wedge other than the start. -/
def walkAux (wedges : List Wedge) (startIdx : ℕ) :
    ℕ → List Bool → List ℕ → ℕ → ℕ → Option (List Bool × List ℕ × ℕ)
  | 0, _, _, _, _ => none
  | fuel + 1, used, acc, logN, cur =>
    let w := wedges.getD cur default
    let used2 := used.set cur true
    let acc2 := acc ++ [w.v]
    match lookupWedge wedges (w.v, w.w) with
    | none => some (used2, acc2, logN + 1)
    | some nIdx =>
      if nIdx = startIdx then some (used2, acc2, logN)
      else walkAux wedges startIdx fuel used2 acc2 logN nIdx

/-- The outer loop of `runPhaseTwo` (utils.js) from wedge index `i`: skip used
wedges, otherwise run a face walk from `i` and append the resulting face path
(complete or aborted) to the region list.  The first argument is structural
fuel; with the fuel `runPhaseTwo` supplies it runs out exactly when the index
guard fails, and both exits return the accumulated regions. -/
def phaseTwoFrom (wedges : List Wedge) :
    ℕ → List Bool → List (List ℕ) → ℕ → ℕ → Option (List (List ℕ) × ℕ)
  | 0, _, regions, logN, _ => some (regions, logN)
  | fuel + 1, used, regions, logN, i =>
    if i < wedges.length then
      if used.getD i false then phaseTwoFrom wedges fuel used regions logN (i + 1)
      else
        match walkAux wedges i (wedges.length + 1) used [] logN i with
        | none => none
        | some (used2, region, log2) =>
          phaseTwoFrom wedges fuel used2 (regions ++ [region]) log2 (i + 1)
    else some (regions, logN)

/-- Embedding of `GraphRegionExtractor.runPhaseTwo` (utils.js): the extracted
face paths together with the number of broken-topology errors logged. -/
def runPhaseTwo (wedges : List Wedge) : Option (List (List ℕ) × ℕ) :=
  phaseTwoFrom wedges wedges.length (List.replicate wedges.length false) [] 0 0

/-- The raw (undivided) shoelace sum a region accumulates inside
`GraphRegionExtractor.solve` (utils.js). -/
def regionArea (vertices : List Pt) (region : List ℕ) : ℚ :=
  (List.range region.length).foldl (fun acc k =>
    let a := vertices.getD (region.getD k 0) default
    let b := vertices.getD (region.getD ((k + 1) % region.length) 0) default
    acc + (a.x * b.y - b.x * a.y)) 0

/-- One step of the outer-face scan of `solve` (utils.js): update the running
`(maxArea, maxIdx)` pair when the absolute shoelace sum of region `r` is
strictly larger than the running maximum. -/
def outerStep (vertices : List Pt) (regions : List (List ℕ))
    (st : ℚ × Option ℕ) (r : ℕ) : ℚ × Option ℕ :=
  let area := |regionArea vertices (regions.getD r [])|
  if st.1 < area then (area, some r) else st

/-- The outer-face scan of `solve` (utils.js): fold with `maxArea = 0` and
`maxIdx = -1` (modelled as `none`), updating on a strictly larger absolute
area. -/
def outerScan (vertices : List Pt) (regions : List (List ℕ)) : ℚ × Option ℕ :=
  (List.range regions.length).foldl (outerStep vertices regions) (0, none)

/-- The outer-face removal of `solve` (utils.js): splice out the scanned index
when one was found, otherwise leave the region list unchanged. -/
def removeOuter (vertices : List Pt) (regions : List (List ℕ)) : List (List ℕ) :=
  match (outerScan vertices regions).2 with
  | some idx => regions.eraseIdx idx
  | none => regions

/-- Embedding of `GraphRegionExtractor.solve` (utils.js): phase one, phase
two, then outer-face removal. -/
def solve (vertices : List Pt) (edges : List (ℕ × ℕ)) : Option (List (List ℕ)) :=
  match runPhaseTwo (runPhaseOne vertices edges) with
  | none => none
  | some (regions, _) => some (removeOuter vertices regions)

end Extractor

namespace Graph

/-!
Embedding of the growth simulation of `graph.js` (the final variant of the
file, with the line-count snapshot in `update` and the
intersection / boundary / split / twist priority chain in `Line.grow`).
The geometry lives in the `(x, z)` plane of `Vector3`; the `Pt` field `y`
models the JavaScript `z` component, and the `Vector3` field `y` is
identically 0.  The ambient transcendental functions (`Math.cos`, `Math.sin`,
`Math.atan2`, `Math.PI`, the `ImprovedNoise` sampler) and the process-wide
`Math.random` stream are modelled by an explicit environment of unconstrained
rational functions; the color-only random draws of the source (which do not
affect geometry or topology) are not modelled.
-/

/-- Embedding of the `Line` record of graph.js (the rendering-only `color`
field is omitted).  `endP` models `this.end`. -/
structure LineR where
  id : ℕ
  startNode : ℕ
  endNode : Option ℕ
  start : Pt
  endP : Pt
  direction : Pt
  active : Bool
  stepsSinceLastSplit : ℕ
  stepsSinceLastTwist : ℕ
deriving DecidableEq, Repr

instance : Inhabited LineR :=
  ⟨⟨0, 0, none, default, default, default, false, 0, 0⟩⟩

/-- The module-level configuration variables of graph.js (settable via
`reset`), plus the constants `radius = 10` and `dt = 0.1`. -/
structure Cfg where
  minDistance : ℚ
  minTwistDistance : ℚ
  minAngle : ℚ
  maxAngle : ℚ
  probability : ℚ
  noiseScale : ℚ
  radius : ℚ
  dt : ℚ
deriving Repr

/-- Model of the ambient JavaScript environment: the `Math.random` stream
(indexed by call counter), the transcendental library functions, and the
`ImprovedNoise` sampler.  All are unconstrained rational-valued functions. -/
structure Env where
  rand : ℕ → ℚ
  cosQ : ℚ → ℚ
  sinQ : ℚ → ℚ
  atan2Q : ℚ → ℚ → ℚ
  noiseQ : ℚ → ℚ → ℚ → ℚ
  piQ : ℚ

/-- The module-level mutable state of graph.js: the node registry, the line
array, and the position in the random stream. -/
structure GState where
  nodes : List Pt
  lines : List LineR
  rngIdx : ℕ
deriving Repr

/-- Embedding of `getNode` (graph.js): append the point, return its index. -/
def getNode (s : GState) (p : Pt) : ℕ × GState :=
  (s.nodes.length, { s with nodes := s.nodes ++ [p] })

/-- Model of `direction.normalize().multiplyScalar(dt)` (three.js).  Division
by a zero length (which yields NaN coordinates in JavaScript) is modelled by
the rational convention `x / 0 = 0`; no claim below exercises that case. -/
def normalizeScale (v : Pt) (dt : ℚ) : Pt :=
  let len := hypotQ v.x v.y
  ⟨v.x / len * dt, v.y / len * dt⟩

/-- Embedding of the `Line` constructor (graph.js): id is the current line
count, start and end sit on the start node, the direction is normalized and
scaled by `dt`, and the line starts active with zeroed step counters. -/
def mkLine (s : GState) (startNode : ℕ) (dir : Pt) (dt : ℚ) : LineR :=
  let st := s.nodes.getD startNode default
  { id := s.lines.length, startNode := startNode, endNode := none, start := st,
    endP := st, direction := normalizeScale dir dt, active := true,
    stepsSinceLastSplit := 0, stepsSinceLastTwist := 0 }

/-- Embedding of `Line.close` (graph.js): bind the end node, snap the tip to
it, deactivate. -/
def closeLine (s : GState) (l : LineR) (node : ℕ) : LineR :=
  { l with endNode := some node, endP := s.nodes.getD node default, active := false }

/-- Embedding of `getSegmentIntersection` (graph.js): the `(x, z)`-plane
parametric segment intersection; `none` when the denominator is below `1e-10`
in absolute value or when either parameter leaves `[0, 1]` (inclusive bounds
with `includeEndpoints`, strict bounds without). -/
def getSegmentIntersectionG (start1 end1 start2 end2 : Pt)
    (includeEndpoints : Bool) : Option Pt :=
  let x1 := start1.x
  let y1 := start1.y
  let x2 := end1.x
  let y2 := end1.y
  let x3 := start2.x
  let y3 := start2.y
  let x4 := end2.x
  let y4 := end2.y
  let denominator := (y4 - y3) * (x2 - x1) - (x4 - x3) * (y2 - y1)
  if |denominator| < eps10 then none
  else
    let ua := ((x4 - x3) * (y1 - y3) - (y4 - y3) * (x1 - x3)) / denominator
    let ub := ((x2 - x1) * (y1 - y3) - (y2 - y1) * (x1 - x3)) / denominator
    let out :=
      if includeEndpoints then ua < 0 ∨ 1 < ua ∨ ub < 0 ∨ 1 < ub
      else ua ≤ 0 ∨ 1 ≤ ua ∨ ub ≤ 0 ∨ 1 ≤ ub
    if out then none
    else some ⟨x1 + ua * (x2 - x1), y1 + ua * (y2 - y1)⟩

/-- Squared distance between two points, modelling `distanceToSquared`. -/
def distSq (a b : Pt) : ℚ := (a.x - b.x) * (a.x - b.x) + (a.y - b.y) * (a.y - b.y)

/-- Embedding of `Line.intersects` (graph.js, without the optional spatial
grid): every other line (closed segments included) whose segment crosses this
line tip segment strictly (endpoints excluded), sorted by ascending squared
distance of the hit point from this line start (stable sort). -/
def intersectsList (s : GState) (l : LineR) : List (ℕ × Pt) :=
  stableSort (fun a b => decide (distSq l.start a.2 ≤ distSq l.start b.2))
    (s.lines.foldl (fun acc other =>
      if other.id = l.id then acc
      else
        match getSegmentIntersectionG l.start l.endP other.start other.endP false with
        | some p => acc ++ [(other.id, p)]
        | none => acc) [])

/-- Model of `Maf.map (a, b) → (c, d)` applied to `x`. -/
def mafMap (a b c d x : ℚ) : ℚ := c + (x - a) * (d - c) / (b - a)

/-- Model of `applyAxisAngle(up, θ)` (three.js) for the `(x, z)` plane:
rotation about the `+y` axis by `θ`. -/
def rotY (env : Env) (v : Pt) (θ : ℚ) : Pt :=
  ⟨v.x * env.cosQ θ + v.y * env.sinQ θ, -v.x * env.sinQ θ + v.y * env.cosQ θ⟩

/-- Embedding of `Line.twist` (graph.js) acting on the line at index `j`:
register the tip as a new node, append a closed copy of the elapsed stretch,
restart the line from the new node with the twist counter reset, and rotate
its direction to `atan2` of the old direction plus a noise-driven increment. -/
def twist (env : Env) (cfg : Cfg) (s : GState) (j : ℕ) : GState :=
  let l := s.lines.getD j default
  let (newStart, s1) := getNode s l.endP
  let old := closeLine s1 (mkLine s1 l.startNode l.direction cfg.dt) newStart
  let s2 := { s1 with lines := s1.lines ++ [old] }
  let l2 := { l with startNode := newStart, start := s2.nodes.getD newStart default,
                     endP := s2.nodes.getD newStart default, stepsSinceLastTwist := 0 }
  let angle := env.atan2Q l2.direction.y l2.direction.x
  let n := env.noiseQ (l2.endP.x * cfg.noiseScale) 0 (l2.endP.y * cfg.noiseScale)
  let angle2 := angle + mafMap (-1) 1 0 (1 / 100 * (2 * env.piQ)) n
  let l3 := { l2 with direction := normalizeScale ⟨env.cosQ angle2, env.sinQ angle2⟩ cfg.dt }
  { s2 with lines := s2.lines.set j l3 }

/-- Embedding of `Line.split` (graph.js) acting on the line at index `j`:
register the tip as a new node, append a closed copy of the elapsed stretch,
restart the line from the new node with the split counter reset (direction
unchanged), then spawn one branch line rotated by a random angle in
`[minAngle, maxAngle]` times a random sign, and with probability one half a
second branch at the opposite angle. -/
def split (env : Env) (cfg : Cfg) (s : GState) (j : ℕ) : GState :=
  let l := s.lines.getD j default
  let (newStart, s1) := getNode s l.endP
  let old := closeLine s1 (mkLine s1 l.startNode l.direction cfg.dt) newStart
  let s2 := { s1 with lines := s1.lines ++ [old] }
  let l2 := { l with startNode := newStart, start := s2.nodes.getD newStart default,
                     endP := s2.nodes.getD newStart default, stepsSinceLastSplit := 0 }
  let s3 := { s2 with lines := s2.lines.set j l2 }
  let sd := env.rand s3.rngIdx
  let sgn : ℚ := if 1 / 2 < sd then 1 else -1
  let ad := env.rand (s3.rngIdx + 1)
  let angle := cfg.minAngle + ad * (cfg.maxAngle - cfg.minAngle)
  let dir := rotY env l2.direction (angle * sgn)
  let line1 := mkLine s3 l2.startNode dir cfg.dt
  let s4 := { s3 with lines := s3.lines ++ [line1], rngIdx := s3.rngIdx + 2 }
  let bd := env.rand s4.rngIdx
  let s5 := { s4 with rngIdx := s4.rngIdx + 1 }
  if 1 / 2 < bd then
    let dir2 := rotY env l2.direction (angle * sgn + env.piQ)
    let line2 := mkLine s5 l2.startNode dir2 cfg.dt
    { s5 with lines := s5.lines ++ [line2] }
  else s5

/-- The opening moves of `Line.grow` (graph.js): increment both step counters
and advance the tip by one fixed step vector (the stored direction, whose
magnitude is `dt`). -/
def advance (l : LineR) : LineR :=
  { l with stepsSinceLastSplit := l.stepsSinceLastSplit + 1,
           stepsSinceLastTwist := l.stepsSinceLastTwist + 1,
           endP := ⟨l.endP.x + l.direction.x, l.endP.y + l.direction.y⟩ }

/-- Embedding of `Line.grow` (graph.js, final variant) acting on the line at
index `j`.  An inactive line is untouched.  Otherwise: increment both step
counters and advance the tip by the direction vector; if the tip segment
crosses other lines, resolve the nearest crossing (new node at the hit point,
this line closed there, the crossed line split into an appended closed piece
and a continuation restarting from the new node) and stop; otherwise close at
the tip when it leaves the radius (the test `end.length() > radius` is
embedded as the exact squared comparison, equivalent for the non-negative
radius the source uses) and stop; otherwise try the split condition (distance
threshold, then a random trial); when no split occurred, try the twist
condition. -/
def grow (env : Env) (cfg : Cfg) (s : GState) (j : ℕ) : GState :=
  let l := s.lines.getD j default
  if l.active = false then s
  else
    let l1 := advance l
    let s1 := { s with lines := s.lines.set j l1 }
    match (intersectsList s1 l1).head? with
    | some hit =>
      let (endId, s2) := getNode s1 hit.2
      let s3 := { s2 with lines := s2.lines.set j (closeLine s2 l1 endId) }
      let other := s3.lines.getD hit.1 default
      let closedDir := Pt.mk (other.endP.x - other.start.x) (other.endP.y - other.start.y)
      let closed := closeLine s3 (mkLine s3 other.startNode closedDir cfg.dt) endId
      let s4 := { s3 with lines := s3.lines ++ [closed] }
      let other2 := { other with startNode := endId, start := hit.2 }
      { s4 with lines := s4.lines.set hit.1 other2 }
    | none =>
      if cfg.radius * cfg.radius < l1.endP.x * l1.endP.x + l1.endP.y * l1.endP.y then
        let (nid, s2) := getNode s1 l1.endP
        { s2 with lines := s2.lines.set j (closeLine s2 l1 nid) }
      else
        if cfg.minDistance < (l1.stepsSinceLastSplit : ℚ) * cfg.dt then
          let r := env.rand s1.rngIdx
          let s2 := { s1 with rngIdx := s1.rngIdx + 1 }
          if r < cfg.probability then split env cfg s2 j
          else if cfg.minTwistDistance < (l1.stepsSinceLastTwist : ℚ) * cfg.dt then
            twist env cfg s2 j
          else s2
        else if cfg.minTwistDistance < (l1.stepsSinceLastTwist : ℚ) * cfg.dt then
          twist env cfg s1 j
        else s1

/-- One simulation step of `update` (graph.js, final variant): snapshot the
current line count and grow exactly the lines at indices below it, in order. -/
def updateStep (env : Env) (cfg : Cfg) (s : GState) : GState :=
  (List.range s.lines.length).foldl (fun st j => grow env cfg st j) s

/-- Embedding of `update n` (graph.js, final variant): `n` simulation steps. -/
def update (env : Env) (cfg : Cfg) : ℕ → GState → GState
  | 0, s => s
  | n + 1, s => update env cfg n (updateStep env cfg s)

/-- Well-formedness of a graph state: every line record stores its own index
as `id`.  This holds for every state reachable through the graph.js API
(lines are only ever created with `id = lines.length` and immediately
pushed), and it is what makes `Line.intersects` self-exclusion by `id` and
the read-modify-write of the crossed line by `id` coherent. -/
def WFState (s : GState) : Prop :=
  ∀ k, k < s.lines.length → (s.lines.getD k default).id = k

end Graph

namespace PolygonInset

/-- The point `q` lies on the boundary of the polygon: it is a convex
combination of the endpoints of one of the polygon edges. -/
def onBoundary (q : Pt) (poly : List Pt) : Prop :=
  ∃ i, i < poly.length ∧ ∃ t : ℚ, 0 ≤ t ∧ t ≤ 1 ∧
    q = Pt.mk ((poly.getD i default).x
        + t * ((poly.getD ((i + 1) % poly.length) default).x - (poly.getD i default).x))
      ((poly.getD i default).y
        + t * ((poly.getD ((i + 1) % poly.length) default).y - (poly.getD i default).y))

end PolygonInset

namespace SpecModel

/-!
The feasibility pre-check described by the spec for `PolygonInset.shrink`
does not exist in the source; the following definitions formalize the
quantities the spec text mentions, so that the claim about the pre-check can
be stated and refuted against the code.
-/

/-- Modelled from the spec: the polygon centroid of the feasibility
pre-check, taken as the vertex average.  For a triangle this agrees with the
area centroid, so statements about triangles are robust to either reading. -/
def centroid (poly : List Pt) : Pt :=
  ⟨(poly.foldl (fun acc p => acc + p.x) 0) / poly.length,
   (poly.foldl (fun acc p => acc + p.y) 0) / poly.length⟩

/-- Modelled from the spec: the offset strictly exceeds the Euclidean
distance from point `c` to the line through `a` and `b`.  Stated by
cross-multiplication and squaring (`off² · |b - a|² > cross²`, with
`off ≥ 0` and a non-degenerate edge) to stay inside rational arithmetic. -/
def offsetExceedsLineDist (c a b : Pt) (off : ℚ) : Prop :=
  0 ≤ off ∧ (b.x - a.x) * (b.x - a.x) + (b.y - a.y) * (b.y - a.y) ≠ 0 ∧
    ((b.x - a.x) * (c.y - a.y) - (b.y - a.y) * (c.x - a.x)) *
        ((b.x - a.x) * (c.y - a.y) - (b.y - a.y) * (c.x - a.x)) <
      off * off * ((b.x - a.x) * (b.x - a.x) + (b.y - a.y) * (b.y - a.y))

/-- Modelled from the spec: the offset exceeds the distance from the polygon
centroid to some polygon edge. -/
def offsetExceedsSomeEdgeDist (poly : List Pt) (off : ℚ) : Prop :=
  ∃ i, i < poly.length ∧
    offsetExceedsLineDist (centroid poly) (poly.getD i default)
      (poly.getD ((i + 1) % poly.length) default) off

end SpecModel

/-!
Concrete fixtures for the growth-simulation witnesses: an environment whose
random stream and transcendental functions are identically zero, a
configuration with `radius = 10`, `dt = 0.1` and both distance thresholds at
1, one active horizontal line `lineA` growing from the origin, one active
vertical line `lineB` whose segment blocks its path, and the two states built
from them.
-/

/-- Witness environment: every ambient function returns 0. -/
def envW : Graph.Env := ⟨fun _ => 0, fun _ => 0, fun _ => 0, fun _ _ => 0, fun _ _ _ => 0, 0⟩

/-- Witness configuration: thresholds 1, probability 1, radius 10, dt 1/10. -/
def cfgW : Graph.Cfg := ⟨1, 1, 0, 0, 1, 1, 10, 1 / 10⟩

/-- Witness line 0: active, growing rightward from the origin, tip at
`(1/5, 0)`. -/
def lineA : Graph.LineR := ⟨0, 0, none, ⟨0, 0⟩, ⟨1 / 5, 0⟩, ⟨1 / 10, 0⟩, true, 2, 2⟩

/-- Witness line 1: active vertical line through `x = 1/4` crossing the path
of `lineA`. -/
def lineB : Graph.LineR :=
  ⟨1, 1, none, ⟨1 / 4, -(1 / 2)⟩, ⟨1 / 4, 1 / 2⟩, ⟨0, 1 / 10⟩, true, 0, 0⟩

/-- Witness state with the two crossing lines. -/
def sAB : Graph.GState := ⟨[⟨0, 0⟩, ⟨1 / 4, -(1 / 2)⟩], [lineA, lineB], 0⟩

/-- Witness state with the single line `lineA` (no intersection, no boundary,
thresholds unmet: a pure advance step). -/
def sC3 : Graph.GState := ⟨[⟨0, 0⟩], [lineA], 0⟩

/-!
Theorems.  The first group contains supporting lemmas shared between claims;
each claim of the specification then gets exactly one theorem (with a witness
where the theorem carries hypotheses).
-/

theorem keepLoop_none {aA aB : ℚ} {lA lB : List Pt} (hA : aA ≤ 0) (hB : aB ≤ 0) :
    PolygonInset.keepLoop aA aB lA lB = none := by
  have h1 : ¬(0 < aA ∧ 0 < aB) := fun h => absurd h.1 (not_lt.mpr hA)
  simp [PolygonInset.keepLoop, h1, not_lt.mpr hA, not_lt.mpr hB]

theorem keepLoop_some_pos {lA lB : List Pt}
    (h : 0 < PolygonInset.signedArea lA ∨ 0 < PolygonInset.signedArea lB) :
    ∃ nxt, PolygonInset.keepLoop (PolygonInset.signedArea lA)
        (PolygonInset.signedArea lB) lA lB = some nxt ∧
      0 < PolygonInset.signedArea nxt := by
  unfold PolygonInset.keepLoop
  by_cases h1 : 0 < PolygonInset.signedArea lA ∧ 0 < PolygonInset.signedArea lB
  · rw [if_pos h1]
    by_cases h2 : PolygonInset.signedArea lB ≤ PolygonInset.signedArea lA
    · exact ⟨lA, by rw [if_pos h2], h1.1⟩
    · exact ⟨lB, by rw [if_neg h2], h1.2⟩
  · rw [if_neg h1]
    by_cases h2 : 0 < PolygonInset.signedArea lA
    · exact ⟨lA, by rw [if_pos h2], h2⟩
    · rw [if_neg h2]
      rcases h with h | h
      · exact absurd h h2
      · exact ⟨lB, by rw [if_pos h], h⟩

/-- Claim C5: the segment to segment intersection routine
(`getCoplanarSegmentIntersection`, utils.js) returns null when the two lines
are parallel (determinant below the absolute epsilon `1e-6`) or when either
parametric coordinate leaves `[0, 1]` (bounds adjusted by the
endpoint-inclusion flag), and otherwise returns the intersection point
together with the parametric distance along the first segment; in particular,
segments (0,0)-(2,2) and (0,2)-(2,0) intersect at (1,1) within `1e-6`
tolerance, and the parallel segments (0,0)-(1,0) and (0,1)-(1,1) yield no
intersection.  The same two examples also hold for the sibling routine
`getSegmentIntersection` of graph.js. -/
theorem claim_C5_segment_intersection :
    (∀ s1 e1 s2 e2 inc, |GeometryUtils.segDet s1 e1 s2 e2| < eps6 →
      GeometryUtils.getCoplanarSegmentIntersection s1 e1 s2 e2 inc = none)
  ∧ (∀ s1 e1 s2 e2 inc, eps6 ≤ |GeometryUtils.segDet s1 e1 s2 e2| →
      ¬((if inc then -eps6 else eps6) ≤ GeometryUtils.segT s1 e1 s2 e2 ∧
        GeometryUtils.segT s1 e1 s2 e2 ≤ (if inc then 1 + eps6 else 1 - eps6) ∧
        (if inc then -eps6 else eps6) ≤ GeometryUtils.segU s1 e1 s2 e2 ∧
        GeometryUtils.segU s1 e1 s2 e2 ≤ (if inc then 1 + eps6 else 1 - eps6)) →
      GeometryUtils.getCoplanarSegmentIntersection s1 e1 s2 e2 inc = none)
  ∧ (∀ s1 e1 s2 e2 inc, eps6 ≤ |GeometryUtils.segDet s1 e1 s2 e2| →
      ((if inc then -eps6 else eps6) ≤ GeometryUtils.segT s1 e1 s2 e2 ∧
        GeometryUtils.segT s1 e1 s2 e2 ≤ (if inc then 1 + eps6 else 1 - eps6) ∧
        (if inc then -eps6 else eps6) ≤ GeometryUtils.segU s1 e1 s2 e2 ∧
        GeometryUtils.segU s1 e1 s2 e2 ≤ (if inc then 1 + eps6 else 1 - eps6)) →
      GeometryUtils.getCoplanarSegmentIntersection s1 e1 s2 e2 inc =
        some ⟨GeometryUtils.segT s1 e1 s2 e2,
          Pt.mk (s1.x + GeometryUtils.segT s1 e1 s2 e2 * (e1.x - s1.x))
            (s1.y + GeometryUtils.segT s1 e1 s2 e2 * (e1.y - s1.y))⟩)
  ∧ (∃ h, GeometryUtils.getCoplanarSegmentIntersection ⟨0,0⟩ ⟨2,2⟩ ⟨0,2⟩ ⟨2,0⟩ true =
        some h ∧ |h.point.x - 1| ≤ eps6 ∧ |h.point.y - 1| ≤ eps6)
  ∧ GeometryUtils.getCoplanarSegmentIntersection ⟨0,0⟩ ⟨1,0⟩ ⟨0,1⟩ ⟨1,1⟩ true = none
  ∧ Graph.getSegmentIntersectionG ⟨0,0⟩ ⟨2,2⟩ ⟨0,2⟩ ⟨2,0⟩ true = some ⟨1,1⟩
  ∧ Graph.getSegmentIntersectionG ⟨0,0⟩ ⟨1,0⟩ ⟨0,1⟩ ⟨1,1⟩ true = none := by
  refine ⟨?_, ?_, ?_, ?_, ?_, ?_, ?_⟩
  · intro s1 e1 s2 e2 inc h
    simp only [GeometryUtils.getCoplanarSegmentIntersection, if_pos h]
  · intro s1 e1 s2 e2 inc h1 h2
    simp only [GeometryUtils.getCoplanarSegmentIntersection]
    rw [if_neg (not_lt.mpr h1), if_neg h2]
  · intro s1 e1 s2 e2 inc h1 h2
    simp only [GeometryUtils.getCoplanarSegmentIntersection]
    rw [if_neg (not_lt.mpr h1), if_pos h2]
  · exact ⟨⟨1/2, ⟨1, 1⟩⟩, by decide, by decide, by decide⟩
  · decide
  · decide
  · decide

/-- Witness for C5: the parallel-rejection branch applied at a concrete
input. -/
theorem claim_C5_witness :
    GeometryUtils.getCoplanarSegmentIntersection ⟨0,0⟩ ⟨3,0⟩ ⟨0,5⟩ ⟨3,5⟩ true = none :=
  claim_C5_segment_intersection.1 ⟨0,0⟩ ⟨3,0⟩ ⟨0,5⟩ ⟨3,5⟩ true (by decide)

/-- Claim C7: the self-intersection resolver repeatedly scans non-adjacent
edge pairs; a polygon below 3 vertices yields `none`; with no crossing among
non-adjacent edges the current polygon is returned; at a crossing the polygon
splits into the two sub-loops, and when both have non-positive signed area
the resolver returns no result (exactly as in the degeneracy case), while
otherwise it keeps a positive-area sub-loop and repeats on it. -/
theorem claim_C7_resolver_semantics :
    (∀ pts : List Pt, 1 ≤ pts.length → pts.length < 3 →
      PolygonInset.resolveSelfIntersections pts = none)
  ∧ (∀ pts : List Pt, 3 ≤ pts.length → PolygonInset.findCrossing pts = none →
      PolygonInset.resolveSelfIntersections pts = some pts)
  ∧ (∀ (pts : List Pt) (i j : ℕ) (p : Pt), 3 ≤ pts.length →
      PolygonInset.findCrossing pts = some (i, j, p) →
      PolygonInset.signedArea (PolygonInset.loopA pts i j p) ≤ 0 →
      PolygonInset.signedArea (PolygonInset.loopB pts i j p) ≤ 0 →
      PolygonInset.resolveSelfIntersections pts = none)
  ∧ (∀ (fuel : ℕ) (pts : List Pt) (iter i j : ℕ) (p : Pt),
      iter < pts.length * 2 → ¬pts.length < 3 →
      PolygonInset.findCrossing pts = some (i, j, p) →
      (0 < PolygonInset.signedArea (PolygonInset.loopA pts i j p) ∨
        0 < PolygonInset.signedArea (PolygonInset.loopB pts i j p)) →
      ∃ nxt, PolygonInset.keepLoop (PolygonInset.signedArea (PolygonInset.loopA pts i j p))
          (PolygonInset.signedArea (PolygonInset.loopB pts i j p))
          (PolygonInset.loopA pts i j p) (PolygonInset.loopB pts i j p) = some nxt ∧
        0 < PolygonInset.signedArea nxt ∧
        PolygonInset.resolveLoop (fuel + 1) pts iter =
          PolygonInset.resolveLoop fuel nxt (iter + 1)) := by
  refine ⟨?_, ?_, ?_, ?_⟩
  · intro pts h1 h2
    simp only [PolygonInset.resolveSelfIntersections, PolygonInset.resolveLoop]
    rw [if_pos (by omega), if_pos h2]
  · intro pts h3 hfc
    simp only [PolygonInset.resolveSelfIntersections, PolygonInset.resolveLoop]
    rw [if_pos (by omega), if_neg (by omega)]
    simp only [hfc]
  · intro pts i j p h3 hfc hA hB
    simp only [PolygonInset.resolveSelfIntersections, PolygonInset.resolveLoop]
    rw [if_pos (by omega), if_neg (by omega)]
    simp only [hfc, keepLoop_none hA hB]
  · intro fuel pts iter i j p hiter hlen hfc hpos
    obtain ⟨nxt, hk, hp⟩ := keepLoop_some_pos hpos
    refine ⟨nxt, hk, hp, ?_⟩
    simp only [PolygonInset.resolveLoop]
    rw [if_pos hiter, if_neg hlen]
    simp only [hfc, hk]

/-- Witness for C7: the no-crossing branch evaluated at a concrete simple
triangle. -/
theorem claim_C7_witness :
    PolygonInset.resolveSelfIntersections [⟨0,0⟩, ⟨1,0⟩, ⟨0,1⟩] =
      some [⟨0,0⟩, ⟨1,0⟩, ⟨0,1⟩] :=
  claim_C7_resolver_semantics.2.1 [⟨0,0⟩, ⟨1,0⟩, ⟨0,1⟩] (by decide) (by decide)

/-- Claim C9: the self-intersection resolver is idempotent on simple
polygons: on a polygon (at least 3 vertices) with no crossing between
non-adjacent edges it returns the input vertex sequence unchanged, so a
second application yields the same result as the first. -/
theorem claim_C9_resolver_idempotent (pts : List Pt) (h3 : 3 ≤ pts.length)
    (hs : PolygonInset.findCrossing pts = none) :
    PolygonInset.resolveSelfIntersections pts = some pts ∧
    (PolygonInset.resolveSelfIntersections pts).bind
        PolygonInset.resolveSelfIntersections =
      PolygonInset.resolveSelfIntersections pts := by
  have h1 : PolygonInset.resolveSelfIntersections pts = some pts := by
    simp only [PolygonInset.resolveSelfIntersections, PolygonInset.resolveLoop]
    rw [if_pos (by omega), if_neg (by omega)]
    simp only [hs]
  refine ⟨h1, ?_⟩
  rw [h1]
  show PolygonInset.resolveSelfIntersections pts = some pts
  exact h1

/-- Witness for C9: idempotence at a concrete square. -/
theorem claim_C9_witness :
    PolygonInset.resolveSelfIntersections [⟨0,0⟩, ⟨2,0⟩, ⟨2,2⟩, ⟨0,2⟩] =
      some [⟨0,0⟩, ⟨2,0⟩, ⟨2,2⟩, ⟨0,2⟩] ∧
    (PolygonInset.resolveSelfIntersections [⟨0,0⟩, ⟨2,0⟩, ⟨2,2⟩, ⟨0,2⟩]).bind
        PolygonInset.resolveSelfIntersections =
      PolygonInset.resolveSelfIntersections [⟨0,0⟩, ⟨2,0⟩, ⟨2,2⟩, ⟨0,2⟩] :=
  claim_C9_resolver_idempotent [⟨0,0⟩, ⟨2,0⟩, ⟨2,2⟩, ⟨0,2⟩] (by decide) (by decide)

/-- Claim C1: whenever `PolygonInset.shrink` returns a non-null result, the
candidate polygon it validated (the CCW-frame polygon after offsetting and
self-intersection resolution, before the clamping pass of step 5) has signed
area strictly positive and strictly below the absolute signed area of the
input; and whenever a candidate exists but fails this validation, `shrink`
discards it and returns null. -/
theorem claim_C1_shrink_area_validation (V : List Pt) (off mi : ℚ) :
    (∀ r, PolygonInset.shrink V off mi = some r →
      ∃ c, PolygonInset.shrinkCandidate V off mi = some c ∧
        0 < PolygonInset.signedArea c ∧
        PolygonInset.signedArea c < |PolygonInset.signedArea V|)
  ∧ (∀ c, PolygonInset.shrinkCandidate V off mi = some c →
      ¬(0 < PolygonInset.signedArea c ∧
        PolygonInset.signedArea c < |PolygonInset.signedArea V|) →
      PolygonInset.shrink V off mi = none) := by
  constructor
  · intro r h
    simp only [PolygonInset.shrink] at h
    split at h
    · exact absurd h (by simp)
    · split at h
      · exact absurd h (by simp)
      · split at h
        · exact absurd h (by simp)
        · rename_i c hc
          split at h
          · exact absurd h (by simp)
          · split at h
            · exact absurd h (by simp)
            · rename_i harea
              rw [not_or, not_le, not_le] at harea
              exact ⟨c, hc, harea.1, harea.2⟩
  · intro c hc hbad
    have h3 : ¬V.length < 3 := by
      intro hlt
      rw [PolygonInset.shrinkCandidate, if_pos hlt] at hc
      exact absurd hc (by simp)
    have h8 : ¬|PolygonInset.signedArea V| < eps8 := by
      intro hlt
      simp only [PolygonInset.shrinkCandidate] at hc
      rw [if_neg h3, if_pos hlt] at hc
      exact absurd hc (by simp)
    simp only [PolygonInset.shrink]
    rw [if_neg h3, if_neg h8]
    simp only [hc]
    by_cases hl : c.length < 3
    · rw [if_pos hl]
    · rw [if_neg hl, if_pos ?_]
      rw [not_and_or, not_lt, not_lt] at hbad
      exact hbad

/-- Witness for C1: the validation facts extracted from a concrete successful
shrink of a square. -/
theorem claim_C1_witness :
    ∃ c, PolygonInset.shrinkCandidate [⟨0,0⟩, ⟨4,0⟩, ⟨4,4⟩, ⟨0,4⟩] 1 4 = some c ∧
      0 < PolygonInset.signedArea c ∧
      PolygonInset.signedArea c <
        |PolygonInset.signedArea [⟨0,0⟩, ⟨4,0⟩, ⟨4,4⟩, ⟨0,4⟩]| :=
  (claim_C1_shrink_area_validation [⟨0,0⟩, ⟨4,0⟩, ⟨4,4⟩, ⟨0,4⟩] 1 4).1
    [⟨3,1⟩, ⟨3,3⟩, ⟨1,3⟩, ⟨1,1⟩] (by decide)

/-- Counterexample to claim C6: `shrink` has no feasibility pre-check.  For
the 3-4-5 right triangle (0,0), (4,0), (0,3) and inward offset 9/10, the
offset exceeds the distance from the centroid (4/3, 1) to the hypotenuse
(that distance is 4/5), yet `shrink` succeeds instead of returning null. -/
theorem claim_C6_counterexample :
    SpecModel.offsetExceedsSomeEdgeDist [⟨0,0⟩, ⟨4,0⟩, ⟨0,3⟩] (9/10) ∧
    PolygonInset.shrink [⟨0,0⟩, ⟨4,0⟩, ⟨0,3⟩] (9/10) 4 ≠ none := by
  constructor
  · exact ⟨1, by decide, by decide, by decide, by decide⟩
  · decide

/-- Amended claim C6: `PolygonInset.shrink` performs no feasibility pre-check
on the offset.  Once the two input-shape checks pass (at least 3 vertices and
absolute signed area at least `1e-8` — neither involving the offset), `shrink`
returns null exactly when the offsetting/resolution pipeline fails or when the
post-hoc area validation fails; no offset-magnitude bound is tested before
offsetting. -/
theorem claim_C6_no_feasibility_precheck (V : List Pt) (off mi : ℚ)
    (h3 : ¬V.length < 3) (h8 : ¬|PolygonInset.signedArea V| < eps8) :
    PolygonInset.shrink V off mi = none ↔
      PolygonInset.shrinkCandidate V off mi = none ∨
      ∃ c, PolygonInset.shrinkCandidate V off mi = some c ∧
        (c.length < 3 ∨ PolygonInset.signedArea c ≤ 0 ∨
          |PolygonInset.signedArea V| ≤ PolygonInset.signedArea c) := by
  simp only [PolygonInset.shrink]
  rw [if_neg h3, if_neg h8]
  rcases hc : PolygonInset.shrinkCandidate V off mi with _ | c
  · simp
  · simp only [hc, Option.some.injEq, reduceCtorEq, false_or]
    by_cases hl : c.length < 3
    · rw [if_pos hl]
      simp only [true_iff]
      exact ⟨c, rfl, Or.inl hl⟩
    · rw [if_neg hl]
      by_cases ha : PolygonInset.signedArea c ≤ 0 ∨
          |PolygonInset.signedArea V| ≤ PolygonInset.signedArea c
      · rw [if_pos ha]
        simp only [true_iff]
        exact ⟨c, rfl, Or.inr ha⟩
      · rw [if_neg ha]
        simp only [reduceCtorEq, false_iff, not_exists, not_and]
        intro d hd
        rcases hd with rfl
        simp only [not_or]
        rw [not_or] at ha
        exact ⟨hl, ha.1, ha.2⟩

/-- Witness for the amended C6 theorem: its instance at the 3-4-5 triangle
and offset 9/10, where both pre-check hypotheses hold concretely. -/
theorem claim_C6_witness :
    PolygonInset.shrink [⟨0,0⟩, ⟨4,0⟩, ⟨0,3⟩] (9/10) 4 = none ↔
      PolygonInset.shrinkCandidate [⟨0,0⟩, ⟨4,0⟩, ⟨0,3⟩] (9/10) 4 = none ∨
      ∃ c, PolygonInset.shrinkCandidate [⟨0,0⟩, ⟨4,0⟩, ⟨0,3⟩] (9/10) 4 = some c ∧
        (c.length < 3 ∨ PolygonInset.signedArea c ≤ 0 ∨
          |PolygonInset.signedArea [⟨0,0⟩, ⟨4,0⟩, ⟨0,3⟩]| ≤
            PolygonInset.signedArea c) :=
  claim_C6_no_feasibility_precheck [⟨0,0⟩, ⟨4,0⟩, ⟨0,3⟩] (9/10) 4
    (by decide) (by decide)

theorem closestStep_invariant (p : Pt) (poly : List Pt) {st : Option (ℚ × Pt)} {k : ℕ}
    (hk : k < poly.length)
    (h : st = none ∨ ∃ d q, st = some (d, q) ∧ PolygonInset.onBoundary q poly) :
    PolygonInset.closestStep p poly st k = none ∨
      ∃ d q, PolygonInset.closestStep p poly st k = some (d, q) ∧
        PolygonInset.onBoundary q poly := by
  simp only [PolygonInset.closestStep]
  by_cases hdeg : PolygonInset.edgeLenSq poly k < eps12
  · rw [if_pos hdeg]; exact h
  · rw [if_neg hdeg]
    have hob : PolygonInset.onBoundary
        (Pt.mk ((poly.getD k default).x +
            max 0 (min 1 (((p.x - (poly.getD k default).x) *
                ((poly.getD ((k + 1) % poly.length) default).x - (poly.getD k default).x) +
              (p.y - (poly.getD k default).y) *
                ((poly.getD ((k + 1) % poly.length) default).y - (poly.getD k default).y)) /
              PolygonInset.edgeLenSq poly k)) *
            ((poly.getD ((k + 1) % poly.length) default).x - (poly.getD k default).x))
          ((poly.getD k default).y +
            max 0 (min 1 (((p.x - (poly.getD k default).x) *
                ((poly.getD ((k + 1) % poly.length) default).x - (poly.getD k default).x) +
              (p.y - (poly.getD k default).y) *
                ((poly.getD ((k + 1) % poly.length) default).y - (poly.getD k default).y)) /
              PolygonInset.edgeLenSq poly k)) *
            ((poly.getD ((k + 1) % poly.length) default).y - (poly.getD k default).y)))
        poly := by
      refine ⟨k, hk, max 0 (min 1 (((p.x - (poly.getD k default).x) *
          ((poly.getD ((k + 1) % poly.length) default).x - (poly.getD k default).x) +
        (p.y - (poly.getD k default).y) *
          ((poly.getD ((k + 1) % poly.length) default).y - (poly.getD k default).y)) /
        PolygonInset.edgeLenSq poly k)), le_max_left 0 _, ?_, rfl⟩
      exact max_le (by norm_num) (min_le_left 1 _)
    rcases h with rfl | ⟨d, q, rfl, hq⟩
    · exact Or.inr ⟨_, _, rfl, hob⟩
    · dsimp only
      split
      · exact Or.inr ⟨_, _, rfl, hob⟩
      · exact Or.inr ⟨d, q, rfl, hq⟩

theorem closest_fold_onBoundary (p : Pt) (poly : List Pt) (l : List ℕ) :
    ∀ st : Option (ℚ × Pt),
      (∀ k ∈ l, k < poly.length) →
      (st = none ∨ ∃ d q, st = some (d, q) ∧ PolygonInset.onBoundary q poly) →
      (List.foldl (PolygonInset.closestStep p poly) st l = none ∨
        ∃ d q, List.foldl (PolygonInset.closestStep p poly) st l = some (d, q) ∧
          PolygonInset.onBoundary q poly) := by
  induction l with
  | nil => intro st _ h; exact h
  | cons k l ih =>
    intro st hl h
    exact ih _ (fun m hm => hl m (List.mem_cons_of_mem _ hm))
      (closestStep_invariant p poly (hl k (List.mem_cons_self k l)) h)

theorem closestPointOnPolygon_onBoundary {p c : Pt} {poly : List Pt}
    (h : PolygonInset.closestPointOnPolygon p poly = some c) :
    PolygonInset.onBoundary c poly := by
  unfold PolygonInset.closestPointOnPolygon at h
  obtain ⟨⟨d, q⟩, hdq, rfl⟩ := Option.map_eq_some'.mp h
  rcases closest_fold_onBoundary p poly (List.range poly.length) none
      (fun k hk => List.mem_range.mp hk) (Or.inl rfl) with h0 | ⟨d2, q2, heq, hob⟩
  · rw [h0] at hdq; cases hdq
  · rw [heq] at hdq
    rcases hdq with ⟨rfl⟩
    exact hob

theorem closestStep_isSome (p : Pt) (poly : List Pt) (st : Option (ℚ × Pt)) (k : ℕ)
    (h : st.isSome = true) : (PolygonInset.closestStep p poly st k).isSome = true := by
  simp only [PolygonInset.closestStep]
  by_cases hdeg : PolygonInset.edgeLenSq poly k < eps12
  · rw [if_pos hdeg]; exact h
  · rw [if_neg hdeg]
    rcases st with _ | ⟨bd, bq⟩
    · simp
    · dsimp only
      split <;> simp

theorem closestStep_isSome_good (p : Pt) (poly : List Pt) (st : Option (ℚ × Pt)) (k : ℕ)
    (h : ¬PolygonInset.edgeLenSq poly k < eps12) :
    (PolygonInset.closestStep p poly st k).isSome = true := by
  simp only [PolygonInset.closestStep]
  rw [if_neg h]
  rcases st with _ | ⟨bd, bq⟩
  · simp
  · dsimp only
    split <;> simp

theorem closest_fold_isSome (p : Pt) (poly : List Pt) (l : List ℕ) :
    ∀ st : Option (ℚ × Pt), st.isSome = true →
      (List.foldl (PolygonInset.closestStep p poly) st l).isSome = true := by
  induction l with
  | nil => intro st h; exact h
  | cons k l ih => intro st h; exact ih _ (closestStep_isSome p poly st k h)

theorem closestPointOnPolygon_isSome (p : Pt) (poly : List Pt)
    (h : ∃ i, i < poly.length ∧ ¬PolygonInset.edgeLenSq poly i < eps12) :
    (PolygonInset.closestPointOnPolygon p poly).isSome = true := by
  obtain ⟨i, hi, hg⟩ := h
  obtain ⟨s, t, hst⟩ := List.append_of_mem (List.mem_range.mpr hi)
  unfold PolygonInset.closestPointOnPolygon
  rw [hst, List.foldl_append, List.foldl_cons]
  have h2 := closest_fold_isSome p poly t _
    (closestStep_isSome_good p poly (List.foldl (PolygonInset.closestStep p poly) none s) i hg)
  obtain ⟨y, hy⟩ := Option.isSome_iff_exists.mp h2
  rw [hy]
  rfl

/-- Claim C10: after the area validation, `PolygonInset.shrink` applies a
final clamping pass: the returned polygon is exactly the validated candidate
with every vertex that fails the ray-casting inside test replaced by its
closest point on the boundary of the CCW-normalized input (then the original
winding is restored).  Consequently every vertex of a non-null result either
passes the ray-casting inside test or lies exactly on an edge of the
CCW-normalized input polygon; the clamping happens after the validation, so
the area inequalities are guaranteed for the pre-clamp candidate only. -/
theorem claim_C10_clamping_pass (V : List Pt) (off mi : ℚ) (r : List Pt)
    (hr : PolygonInset.shrink V off mi = some r)
    (hedge : ∃ i, i < (PolygonInset.normCCW V).length ∧
      ¬PolygonInset.edgeLenSq (PolygonInset.normCCW V) i < eps12) :
    ∃ c, PolygonInset.shrinkCandidate V off mi = some c ∧
      0 < PolygonInset.signedArea c ∧
      PolygonInset.signedArea c < |PolygonInset.signedArea V| ∧
      r = (if 0 < PolygonInset.signedArea V then
            c.map (PolygonInset.clampPoint (PolygonInset.normCCW V))
          else (c.map (PolygonInset.clampPoint (PolygonInset.normCCW V))).reverse) ∧
      ∀ q ∈ r, PolygonInset.pointInPolygon q (PolygonInset.normCCW V) = true ∨
        PolygonInset.onBoundary q (PolygonInset.normCCW V) := by
  simp only [PolygonInset.shrink] at hr
  split at hr
  · exact absurd hr (by simp)
  · split at hr
    · exact absurd hr (by simp)
    · split at hr
      · exact absurd hr (by simp)
      · rename_i c hc
        split at hr
        · exact absurd hr (by simp)
        · split at hr
          · exact absurd hr (by simp)
          · rename_i harea
            rw [not_or, not_le, not_le] at harea
            have hre := Option.some.inj hr
            refine ⟨c, hc, harea.1, harea.2, hre.symm, ?_⟩
            intro q hq
            have hq2 : q ∈ c.map (PolygonInset.clampPoint (PolygonInset.normCCW V)) := by
              rw [← hre] at hq
              by_cases hccw : 0 < PolygonInset.signedArea V
              · rwa [if_pos hccw] at hq
              · rw [if_neg hccw] at hq
                exact List.mem_reverse.mp hq
            obtain ⟨p0, hp0, rfl⟩ := List.mem_map.mp hq2
            unfold PolygonInset.clampPoint
            by_cases hin : PolygonInset.pointInPolygon p0 (PolygonInset.normCCW V) = true
            · rw [if_pos hin]
              exact Or.inl hin
            · rw [if_neg hin]
              obtain ⟨cp, hcp⟩ := Option.isSome_iff_exists.mp
                (closestPointOnPolygon_isSome p0 _ hedge)
              rw [hcp]
              exact Or.inr (closestPointOnPolygon_onBoundary hcp)

/-- Witness for C10: the clamping characterization at a concrete square. -/
theorem claim_C10_witness :
    ∃ c, PolygonInset.shrinkCandidate [⟨0,0⟩, ⟨6,0⟩, ⟨6,6⟩, ⟨0,6⟩] 1 4 = some c ∧
      0 < PolygonInset.signedArea c ∧
      PolygonInset.signedArea c < |PolygonInset.signedArea [⟨0,0⟩, ⟨6,0⟩, ⟨6,6⟩, ⟨0,6⟩]| ∧
      [Pt.mk 5 1, Pt.mk 5 5, Pt.mk 1 5, Pt.mk 1 1] =
        (if 0 < PolygonInset.signedArea [⟨0,0⟩, ⟨6,0⟩, ⟨6,6⟩, ⟨0,6⟩] then
          c.map (PolygonInset.clampPoint (PolygonInset.normCCW [⟨0,0⟩, ⟨6,0⟩, ⟨6,6⟩, ⟨0,6⟩]))
        else (c.map (PolygonInset.clampPoint
          (PolygonInset.normCCW [⟨0,0⟩, ⟨6,0⟩, ⟨6,6⟩, ⟨0,6⟩]))).reverse) ∧
      ∀ q ∈ [Pt.mk 5 1, Pt.mk 5 5, Pt.mk 1 5, Pt.mk 1 1],
        PolygonInset.pointInPolygon q (PolygonInset.normCCW [⟨0,0⟩, ⟨6,0⟩, ⟨6,6⟩, ⟨0,6⟩]) = true ∨
        PolygonInset.onBoundary q (PolygonInset.normCCW [⟨0,0⟩, ⟨6,0⟩, ⟨6,6⟩, ⟨0,6⟩]) :=
  claim_C10_clamping_pass [⟨0,0⟩, ⟨6,0⟩, ⟨6,6⟩, ⟨0,6⟩] 1 4
    [⟨5,1⟩, ⟨5,5⟩, ⟨1,5⟩, ⟨1,1⟩] (by decide) ⟨0, by decide, by decide⟩

theorem outerScan_prefix_spec (vertices : List Pt) (regions : List (List ℕ)) (n : ℕ) :
    (((List.range n).foldl (Extractor.outerStep vertices regions) (0, none)).2 = none →
      ((List.range n).foldl (Extractor.outerStep vertices regions) (0, none)).1 = 0 ∧
      ∀ k, k < n → |Extractor.regionArea vertices (regions.getD k [])| = 0)
  ∧ (∀ i, ((List.range n).foldl (Extractor.outerStep vertices regions) (0, none)).2 = some i →
      i < n ∧
      ((List.range n).foldl (Extractor.outerStep vertices regions) (0, none)).1 =
        |Extractor.regionArea vertices (regions.getD i [])| ∧
      0 < |Extractor.regionArea vertices (regions.getD i [])| ∧
      (∀ k, k < n → |Extractor.regionArea vertices (regions.getD k [])| ≤
        |Extractor.regionArea vertices (regions.getD i [])|) ∧
      (∀ k, k < i → |Extractor.regionArea vertices (regions.getD k [])| <
        |Extractor.regionArea vertices (regions.getD i [])|)) := by
  induction n with
  | zero =>
    constructor
    · intro _
      exact ⟨rfl, fun k hk => absurd hk (Nat.not_lt_zero k)⟩
    · intro i hi
      simp [List.range_zero] at hi
  | succ n ih =>
    rw [List.range_succ, List.foldl_append, List.foldl_cons, List.foldl_nil]
    set st := (List.range n).foldl (Extractor.outerStep vertices regions) (0, none) with hst
    simp only [Extractor.outerStep]
    by_cases hlt : st.1 < |Extractor.regionArea vertices (regions.getD n [])|
    · rw [if_pos hlt]
      constructor
      · intro habs
        exact absurd habs (by simp)
      · intro i hi
        simp only [Option.some.injEq] at hi
        rcases hi with rfl
        have hnonneg : (0 : ℚ) ≤ st.1 := by
          rcases hsnd : st.2 with _ | m
          · rw [(ih.1 hsnd).1]
          · rw [((ih.2 m) hsnd).2.1]
            exact abs_nonneg _
        refine ⟨Nat.lt_succ_self n, rfl, lt_of_le_of_lt hnonneg hlt, ?_, ?_⟩
        · intro k hk
          rcases Nat.lt_succ_iff_lt_or_eq.mp hk with hk2 | rfl
          · rcases hsnd : st.2 with _ | m
            · rw [(ih.1 hsnd).2 k hk2]
              exact abs_nonneg _
            · exact le_trans (((ih.2 m) hsnd).2.2.2.1 k hk2)
                (le_of_lt (((ih.2 m) hsnd).2.1 ▸ hlt))
          · exact le_refl _
        · intro k hk
          rcases hsnd : st.2 with _ | m
          · rw [(ih.1 hsnd).2 k hk]
            exact lt_of_le_of_lt hnonneg hlt
          · exact lt_of_le_of_lt (((ih.2 m) hsnd).2.2.2.1 k hk)
              (((ih.2 m) hsnd).2.1 ▸ hlt)
    · rw [if_neg hlt]
      rw [not_lt] at hlt
      constructor
      · intro hsnd
        refine ⟨(ih.1 hsnd).1, ?_⟩
        intro k hk
        rcases Nat.lt_succ_iff_lt_or_eq.mp hk with hk2 | rfl
        · exact (ih.1 hsnd).2 k hk2
        · have h0 : st.1 = 0 := (ih.1 hsnd).1
          rw [h0] at hlt
          exact le_antisymm hlt (abs_nonneg _)
      · intro i hi
        obtain ⟨hilt, heq, hpos, hall, hstrict⟩ := (ih.2 i) hi
        refine ⟨Nat.lt_succ_of_lt hilt, heq, hpos, ?_, hstrict⟩
        intro k hk
        rcases Nat.lt_succ_iff_lt_or_eq.mp hk with hk2 | rfl
        · exact hall k hk2
        · exact le_trans hlt (le_of_eq heq)

/-- Counterexample to claim C2: on the graph with vertices (0,0), (1,0) and
the single edge (0,1), extraction yields exactly one (degenerate, zero-area)
face, and `solve` returns it unchanged — it neither discards a region nor
returns an empty result. -/
theorem claim_C2_counterexample :
    Extractor.solve [⟨0,0⟩, ⟨1,0⟩] [(0,1)] = some [[0, 1]] ∧
    (Extractor.runPhaseTwo (Extractor.runPhaseOne [⟨0,0⟩, ⟨1,0⟩] [(0,1)])).map
        (fun rs => rs.1.length) = some 1 ∧
    ([[0, 1]] : List (List ℕ)) ≠ [] := by
  refine ⟨by decide, by decide, by decide⟩

/-- Amended claim C2: `GraphRegionExtractor.solve` discards the first region
attaining the maximal absolute shoelace area provided some region has
strictly positive absolute area (so exactly one region is removed); when all
extracted regions have zero absolute area — in particular when extraction
yields zero faces, or the single degenerate face of an isolated edge —
nothing is discarded and the extracted list is returned unchanged (empty in
the zero-face case).  `solve` is exactly phase one, phase two, and this
removal. -/
theorem claim_C2_outer_face_removal (vertices : List Pt) (regions : List (List ℕ)) :
    ((∀ k, k < regions.length →
        |Extractor.regionArea vertices (regions.getD k [])| = 0) →
      Extractor.removeOuter vertices regions = regions)
  ∧ ((∃ k, k < regions.length ∧
        0 < |Extractor.regionArea vertices (regions.getD k [])|) →
      ∃ m, m < regions.length ∧
        Extractor.removeOuter vertices regions = regions.eraseIdx m ∧
        (Extractor.removeOuter vertices regions).length = regions.length - 1 ∧
        (∀ k, k < regions.length →
          |Extractor.regionArea vertices (regions.getD k [])| ≤
            |Extractor.regionArea vertices (regions.getD m [])|) ∧
        (∀ k, k < m →
          |Extractor.regionArea vertices (regions.getD k [])| <
            |Extractor.regionArea vertices (regions.getD m [])|))
  ∧ (∀ (V : List Pt) (E : List (ℕ × ℕ)) (rs : List (List ℕ)),
      Extractor.solve V E = some rs →
      ∃ regions logN,
        Extractor.runPhaseTwo (Extractor.runPhaseOne V E) = some (regions, logN) ∧
        rs = Extractor.removeOuter V regions) := by
  refine ⟨?_, ?_, ?_⟩
  · intro hall
    unfold Extractor.removeOuter
    rcases hscan : (Extractor.outerScan vertices regions).2 with _ | i
    · rfl
    · obtain ⟨hi, _, hpos, _, _⟩ :=
        ((outerScan_prefix_spec vertices regions regions.length).2 i) hscan
      rw [hall i hi] at hpos
      exact absurd hpos (lt_irrefl 0)
  · intro ⟨k, hk, hkpos⟩
    unfold Extractor.removeOuter
    rcases hscan : (Extractor.outerScan vertices regions).2 with _ | m
    · obtain ⟨_, hzero⟩ := (outerScan_prefix_spec vertices regions regions.length).1 hscan
      rw [hzero k hk] at hkpos
      exact absurd hkpos (lt_irrefl 0)
    · obtain ⟨hm, _, _, hall, hstrict⟩ :=
        ((outerScan_prefix_spec vertices regions regions.length).2 m) hscan
      refine ⟨m, hm, rfl, ?_, hall, hstrict⟩
      show (regions.eraseIdx m).length = regions.length - 1
      have := List.length_eraseIdx_add_one hm
      omega
  · intro V E rs hs
    unfold Extractor.solve at hs
    rcases hp : Extractor.runPhaseTwo (Extractor.runPhaseOne V E) with _ | p
    · rw [hp] at hs
      exact absurd hs (by simp)
    · rw [hp] at hs
      exact ⟨p.1, p.2, rfl, (Option.some.inj hs).symm⟩

/-- Witness for the amended C2 theorem: the removal branch applied at the
two-face triangle-cycle graph, where the first face attains the maximum. -/
theorem claim_C2_witness :
    ∃ m, m < ([[0, 2, 1], [0, 1, 2]] : List (List ℕ)).length ∧
      Extractor.removeOuter [⟨0,0⟩, ⟨1,0⟩, ⟨0,1⟩] [[0, 2, 1], [0, 1, 2]] =
        ([[0, 2, 1], [0, 1, 2]] : List (List ℕ)).eraseIdx m ∧
      (Extractor.removeOuter [⟨0,0⟩, ⟨1,0⟩, ⟨0,1⟩] [[0, 2, 1], [0, 1, 2]]).length =
        ([[0, 2, 1], [0, 1, 2]] : List (List ℕ)).length - 1 ∧
      (∀ k, k < ([[0, 2, 1], [0, 1, 2]] : List (List ℕ)).length →
        |Extractor.regionArea [⟨0,0⟩, ⟨1,0⟩, ⟨0,1⟩]
            (([[0, 2, 1], [0, 1, 2]] : List (List ℕ)).getD k [])| ≤
          |Extractor.regionArea [⟨0,0⟩, ⟨1,0⟩, ⟨0,1⟩]
            (([[0, 2, 1], [0, 1, 2]] : List (List ℕ)).getD m [])|) ∧
      (∀ k, k < m →
        |Extractor.regionArea [⟨0,0⟩, ⟨1,0⟩, ⟨0,1⟩]
            (([[0, 2, 1], [0, 1, 2]] : List (List ℕ)).getD k [])| <
          |Extractor.regionArea [⟨0,0⟩, ⟨1,0⟩, ⟨0,1⟩]
            (([[0, 2, 1], [0, 1, 2]] : List (List ℕ)).getD m [])|) :=
  (claim_C2_outer_face_removal [⟨0,0⟩, ⟨1,0⟩, ⟨0,1⟩] [[0, 2, 1], [0, 1, 2]]).2.1
    ⟨0, by decide, by decide⟩

/-- Claim C8: when the face walk cannot find the next wedge keyed by
`(currentV, currentW)`, it aborts only that face traversal — returning the
partial path with one more error logged — and the outer loop then continues
extracting from the remaining unused wedges, so a broken wedge chain never
prevents other faces from being returned; the result is partial, not a fatal
error.  The last conjunct shows this end to end on a wedge list whose first
chain is broken and whose remaining wedges form an intact face. -/
theorem claim_C8_broken_topology_partial :
    (∀ (wedges : List Extractor.Wedge) (start fuel : ℕ) (used : List Bool)
        (acc : List ℕ) (logN cur : ℕ),
      Extractor.lookupWedge wedges
          ((wedges.getD cur default).v, (wedges.getD cur default).w) = none →
      Extractor.walkAux wedges start (fuel + 1) used acc logN cur =
        some (used.set cur true, acc ++ [(wedges.getD cur default).v], logN + 1))
  ∧ (∀ (wedges : List Extractor.Wedge) (fuel : ℕ) (used : List Bool)
        (regions : List (List ℕ)) (logN i : ℕ) (used2 : List Bool)
        (region : List ℕ) (log2 : ℕ),
      i < wedges.length → used.getD i false = false →
      Extractor.walkAux wedges i (wedges.length + 1) used [] logN i =
        some (used2, region, log2) →
      Extractor.phaseTwoFrom wedges (fuel + 1) used regions logN i =
        Extractor.phaseTwoFrom wedges fuel used2 (regions ++ [region]) log2 (i + 1))
  ∧ Extractor.runPhaseTwo [⟨0,1,2⟩, ⟨3,4,5⟩, ⟨4,5,3⟩, ⟨5,3,4⟩] =
      some ([[1], [4, 5, 3]], 1) := by
  refine ⟨?_, ?_, by decide⟩
  · intro wedges start fuel used acc logN cur hlook
    simp only [Extractor.walkAux, hlook]
  · intro wedges fuel used regions logN i used2 region log2 hi huse hwalk
    simp only [Extractor.phaseTwoFrom]
    rw [if_pos hi]
    simp only [huse, Bool.false_eq_true, if_false, hwalk]

/-- Witness for C8: the abort-and-log branch of the walk at a concrete wedge
whose next key is missing. -/
theorem claim_C8_witness :
    Extractor.walkAux [⟨0,1,2⟩] 0 1 [false] [] 0 0 = some ([true], [1], 1) :=
  claim_C8_broken_topology_partial.1 [⟨0,1,2⟩] 0 0 [false] [] 0 0 (by decide)

theorem getD_set {α : Type} (l : List α) (i k : ℕ) (a d : α) :
    (l.set i a).getD k d = if i = k ∧ i < l.length then a else l.getD k d := by
  by_cases h1 : i = k
  · subst h1
    by_cases h2 : i < l.length
    · simp [List.getD_eq_getElem?_getD, List.getElem?_set_self, h2]
    · simp only [List.getD_eq_getElem?_getD, h2, and_false, if_false]
      rw [List.getElem?_eq_none (by simpa using h2),
        List.getElem?_eq_none (by simpa using Nat.le_of_not_lt h2)]
  · simp [List.getD_eq_getElem?_getD, List.getElem?_set_ne h1, h1]

theorem getD_append_left {α : Type} (l1 l2 : List α) (k : ℕ) (d : α)
    (h : k < l1.length) : (l1 ++ l2).getD k d = l1.getD k d := by
  simp [List.getD_eq_getElem?_getD, List.getElem?_append, h]

theorem getD_concat_length {α : Type} (l : List α) (a d : α) :
    (l ++ [a]).getD l.length d = a := by
  simp [List.getD_eq_getElem?_getD]

theorem getD_of_le {α : Type} (l : List α) (d : α) (k : ℕ) (h : l.length ≤ k) :
    l.getD k d = d := by
  simp only [List.getD_eq_getElem?_getD]
  rw [List.getElem?_eq_none h]
  rfl

theorem head?_mem {α : Type} {l : List α} {a : α} (h : l.head? = some a) : a ∈ l := by
  cases l with
  | nil => cases h
  | cons x xs =>
    cases h
    exact List.mem_cons_self _ _

theorem insertSorted_mem {α : Type} {le : α → α → Bool} (x : α) (l : List α) (z : α) :
    z ∈ insertSorted le x l ↔ z = x ∨ z ∈ l := by
  induction l with
  | nil => simp [insertSorted]
  | cons y ys ih =>
    simp only [insertSorted]
    split
    · simp only [List.mem_cons, ih]
      tauto
    · simp only [List.mem_cons]

theorem stableSort_mem {α : Type} {le : α → α → Bool} (l : List α) (z : α) :
    z ∈ stableSort le l ↔ z ∈ l := by
  have main : ∀ (l acc : List α),
      z ∈ l.foldl (fun acc x => insertSorted le x acc) acc ↔ z ∈ acc ∨ z ∈ l := by
    intro l
    induction l with
    | nil => intro acc; simp
    | cons x xs ih =>
      intro acc
      simp only [List.foldl_cons]
      rw [ih, insertSorted_mem, List.mem_cons]
      tauto
  simpa [stableSort] using main l []

theorem insertSorted_pairwise {α : Type} {le : α → α → Bool}
    (htot : ∀ a b, le a b = false → le b a = true)
    (htrans : ∀ a b c, le a b = true → le b c = true → le a c = true)
    (x : α) (l : List α) (hl : l.Pairwise (fun a b => le a b = true)) :
    (insertSorted le x l).Pairwise (fun a b => le a b = true) := by
  induction l with
  | nil => simp [insertSorted]
  | cons y ys ih =>
    rcases List.pairwise_cons.mp hl with ⟨hy, hys⟩
    simp only [insertSorted]
    split
    · rename_i hyx
      refine List.pairwise_cons.mpr ⟨?_, ih hys⟩
      intro z hz
      rcases (insertSorted_mem x ys z).mp hz with rfl | hz2
      · exact hyx
      · exact hy z hz2
    · rename_i hyx
      have hxy : le x y = true := htot y x (by simpa using hyx)
      refine List.pairwise_cons.mpr ⟨?_, hl⟩
      intro z hz
      rcases List.mem_cons.mp hz with rfl | hz2
      · exact hxy
      · exact htrans x y z hxy (hy z hz2)

theorem stableSort_pairwise {α : Type} {le : α → α → Bool}
    (htot : ∀ a b, le a b = false → le b a = true)
    (htrans : ∀ a b c, le a b = true → le b c = true → le a c = true)
    (l : List α) : (stableSort le l).Pairwise (fun a b => le a b = true) := by
  have main : ∀ (l acc : List α), acc.Pairwise (fun a b => le a b = true) →
      (l.foldl (fun acc x => insertSorted le x acc) acc).Pairwise
        (fun a b => le a b = true) := by
    intro l
    induction l with
    | nil => intro acc h; exact h
    | cons x xs ih =>
      intro acc h
      exact ih _ (insertSorted_pairwise htot htrans x acc h)
  exact main l [] List.Pairwise.nil

theorem intersectsList_mem {s : Graph.GState} {l : Graph.LineR} {q : ℕ × Pt}
    (h : q ∈ Graph.intersectsList s l) :
    ∃ other ∈ s.lines, other.id = q.1 ∧ other.id ≠ l.id ∧
      Graph.getSegmentIntersectionG l.start l.endP other.start other.endP false =
        some q.2 := by
  rw [Graph.intersectsList, stableSort_mem] at h
  have main : ∀ (lines : List Graph.LineR) (acc : List (ℕ × Pt)),
      q ∈ lines.foldl (fun acc other =>
        if other.id = l.id then acc
        else
          match Graph.getSegmentIntersectionG l.start l.endP other.start other.endP false with
          | some p => acc ++ [(other.id, p)]
          | none => acc) acc →
      q ∈ acc ∨ ∃ other ∈ lines, other.id = q.1 ∧ other.id ≠ l.id ∧
        Graph.getSegmentIntersectionG l.start l.endP other.start other.endP false =
          some q.2 := by
    intro lines
    induction lines with
    | nil => intro acc h2; exact Or.inl h2
    | cons o os ih =>
      intro acc h2
      rw [List.foldl_cons] at h2
      rcases ih _ h2 with h3 | ⟨other, hmem, h4⟩
      · by_cases hid : o.id = l.id
        · rw [if_pos hid] at h3
          exact Or.inl h3
        · rw [if_neg hid] at h3
          rcases hseg : Graph.getSegmentIntersectionG l.start l.endP o.start o.endP false
            with _ | p
          · rw [hseg] at h3
            exact Or.inl h3
          · rw [hseg] at h3
            rcases List.mem_append.mp h3 with h5 | h5
            · exact Or.inl h5
            · rcases List.mem_singleton.mp h5 with rfl
              exact Or.inr ⟨o, List.mem_cons_self _ _, rfl, hid, hseg⟩
      · exact Or.inr ⟨other, List.mem_cons_of_mem _ hmem, h4⟩
  rcases main s.lines [] h with h2 | h2
  · cases h2
  · exact h2

theorem intersectsList_head_min {s : Graph.GState} {l : Graph.LineR} {hit : ℕ × Pt}
    (h : (Graph.intersectsList s l).head? = some hit) :
    ∀ q ∈ Graph.intersectsList s l,
      Graph.distSq l.start hit.2 ≤ Graph.distSq l.start q.2 := by
  have hsorted := @stableSort_pairwise (ℕ × Pt)
    (fun a b => decide (Graph.distSq l.start a.2 ≤ Graph.distSq l.start b.2))
    (fun a b hab => by
      simp only [decide_eq_false_iff_not, not_le] at hab
      simpa using le_of_lt hab)
    (fun a b c hab hbc => by
      simp only [decide_eq_true_eq] at hab hbc ⊢
      exact le_trans hab hbc)
    (s.lines.foldl (fun acc other =>
      if other.id = l.id then acc
      else
        match Graph.getSegmentIntersectionG l.start l.endP other.start other.endP false with
        | some p => acc ++ [(other.id, p)]
        | none => acc) [])
  rw [← Graph.intersectsList] at hsorted
  intro q hq
  rcases he : Graph.intersectsList s l with _ | ⟨h0, t⟩
  · rw [he] at hq
    cases hq
  · rw [he] at h
    cases h
    rw [he] at hq hsorted
    rcases List.mem_cons.mp hq with rfl | hq2
    · exact le_refl _
    · have := (List.pairwise_cons.mp hsorted).1 q hq2
      simpa using this

theorem WFState_set_advance {s : Graph.GState} (hwf : Graph.WFState s) (j : ℕ) :
    Graph.WFState
      { s with lines := s.lines.set j (Graph.advance (s.lines.getD j default)) } := by
  intro k hk
  simp only [List.length_set] at hk
  rw [getD_set]
  split
  · rename_i hcond
    obtain ⟨hjk, hlt⟩ := hcond
    subst hjk
    have := hwf j hlt
    simpa [Graph.advance] using this
  · exact hwf k hk

theorem getD_concat_of_length {α : Type} {l : List α} {n : ℕ} (h : l.length = n)
    (a d : α) : (l ++ [a]).getD n d = a := by
  subst h
  exact getD_concat_length l a d

theorem split_getD_cases (env : Graph.Env) (cfg : Graph.Cfg) (s : Graph.GState)
    (j k : ℕ) (hjk : j ≠ k) :
    (Graph.split env cfg s j).lines.getD k default = s.lines.getD k default ∨
    ((Graph.split env cfg s j).lines.getD k default).active = false ∨
    (((Graph.split env cfg s j).lines.getD k default).stepsSinceLastSplit = 0 ∧
      ((Graph.split env cfg s j).lines.getD k default).stepsSinceLastTwist = 0) := by
  simp only [Graph.split, Graph.getNode, Graph.closeLine, Graph.mkLine]
  split
  · -- two branch lines pushed
    by_cases h1 : k < s.lines.length
    · left
      rw [getD_append_left _ _ _ _ (by simp only [List.length_set, List.length_append, List.length_cons, List.length_nil]; omega)]
      rw [getD_append_left _ _ _ _ (by simp only [List.length_set, List.length_append, List.length_cons, List.length_nil]; omega)]
      rw [getD_set, if_neg (fun hc => hjk hc.1)]
      rw [getD_append_left _ _ _ _ h1]
    · by_cases h2 : k = s.lines.length
      · right; left
        subst h2
        rw [getD_append_left _ _ _ _ (by simp only [List.length_set, List.length_append, List.length_cons, List.length_nil]; omega)]
        rw [getD_append_left _ _ _ _ (by simp only [List.length_set, List.length_append, List.length_cons, List.length_nil]; omega)]
        rw [getD_set, if_neg (fun hc => hjk hc.1)]
        rw [getD_concat_of_length rfl]
      · by_cases h3 : k = s.lines.length + 1
        · right; right
          subst h3
          rw [getD_append_left _ _ _ _ (by simp only [List.length_set, List.length_append, List.length_cons, List.length_nil]; omega)]
          rw [getD_concat_of_length (by simp only [List.length_set, List.length_append, List.length_cons, List.length_nil])]
          exact ⟨rfl, rfl⟩
        · by_cases h4 : k = s.lines.length + 2
          · right; right
            subst h4
            rw [getD_concat_of_length (by simp only [List.length_set, List.length_append, List.length_cons, List.length_nil])]
            exact ⟨rfl, rfl⟩
          · right; left
            rw [getD_of_le _ _ _ (by simp only [List.length_set, List.length_append, List.length_cons, List.length_nil]; omega)]
            rfl
  · -- one branch line pushed
    by_cases h1 : k < s.lines.length
    · left
      rw [getD_append_left _ _ _ _ (by simp only [List.length_set, List.length_append, List.length_cons, List.length_nil]; omega)]
      rw [getD_set, if_neg (fun hc => hjk hc.1)]
      rw [getD_append_left _ _ _ _ h1]
    · by_cases h2 : k = s.lines.length
      · right; left
        subst h2
        rw [getD_append_left _ _ _ _ (by simp only [List.length_set, List.length_append, List.length_cons, List.length_nil]; omega)]
        rw [getD_set, if_neg (fun hc => hjk hc.1)]
        rw [getD_concat_of_length rfl]
      · by_cases h3 : k = s.lines.length + 1
        · right; right
          subst h3
          rw [getD_concat_of_length (by simp only [List.length_set, List.length_append, List.length_cons, List.length_nil])]
          exact ⟨rfl, rfl⟩
        · right; left
          rw [getD_of_le _ _ _ (by simp only [List.length_set, List.length_append, List.length_cons, List.length_nil]; omega)]
          rfl

theorem twist_getD_cases (env : Graph.Env) (cfg : Graph.Cfg) (s : Graph.GState)
    (j k : ℕ) (hjk : j ≠ k) :
    (Graph.twist env cfg s j).lines.getD k default = s.lines.getD k default ∨
    ((Graph.twist env cfg s j).lines.getD k default).active = false := by
  simp only [Graph.twist, Graph.getNode, Graph.closeLine, Graph.mkLine]
  by_cases h1 : k < s.lines.length
  · left
    rw [getD_set, if_neg (fun hc => hjk hc.1)]
    rw [getD_append_left _ _ _ _ h1]
  · by_cases h2 : k = s.lines.length
    · right
      subst h2
      rw [getD_set, if_neg (fun hc => hjk hc.1)]
      rw [getD_concat_of_length rfl]
    · right
      rw [getD_of_le _ _ _ (by simp [List.length_set, List.length_append]; omega)]
      rfl

theorem grow_getD_cases (env : Graph.Env) (cfg : Graph.Cfg) (s : Graph.GState)
    (j k : ℕ) (hjk : j ≠ k) :
    (Graph.grow env cfg s j).lines.getD k default = s.lines.getD k default ∨
    ((Graph.grow env cfg s j).lines.getD k default).active = false ∨
    (((Graph.grow env cfg s j).lines.getD k default).stepsSinceLastSplit =
        (s.lines.getD k default).stepsSinceLastSplit ∧
      ((Graph.grow env cfg s j).lines.getD k default).stepsSinceLastTwist =
        (s.lines.getD k default).stepsSinceLastTwist ∧
      ((Graph.grow env cfg s j).lines.getD k default).active =
        (s.lines.getD k default).active) ∨
    (((Graph.grow env cfg s j).lines.getD k default).stepsSinceLastSplit = 0 ∧
      ((Graph.grow env cfg s j).lines.getD k default).stepsSinceLastTwist = 0) := by
  simp only [Graph.grow]
  split
  · left; rfl
  split
  · -- intersection branch
    rename_i hit hhit
    simp only [Graph.getNode, Graph.closeLine, Graph.mkLine]
    rw [getD_set]
    split
    · rename_i hc
      obtain ⟨hc1, _⟩ := hc
      right; right; left
      subst hc1
      rw [List.set_set, getD_set, if_neg (fun hd => hjk hd.1)]
      exact ⟨rfl, rfl, rfl⟩
    · by_cases h1 : k < s.lines.length
      · left
        rw [getD_append_left _ _ _ _ (by simp only [List.length_set]; omega)]
        rw [List.set_set, getD_set, if_neg (fun hd => hjk hd.1)]
      · by_cases h2 : k = s.lines.length
        · right; left
          subst h2
          rw [getD_concat_of_length (by simp only [List.length_set])]
        · right; left
          rw [getD_of_le _ _ _
            (by simp only [List.length_append, List.length_set, List.length_cons,
              List.length_nil]; omega)]
          rfl
  · -- no intersection
    split
    · -- boundary close
      simp only [Graph.getNode, Graph.closeLine]
      left
      rw [List.set_set, getD_set, if_neg (fun hd => hjk hd.1)]
    split
    · -- split-condition branch
      split
      · -- split fires
        rcases split_getD_cases env cfg
            { s with lines := s.lines.set j (Graph.advance (s.lines.getD j default)),
                     rngIdx := s.rngIdx + 1 } j k hjk with h | h | h
        · left
          rw [h]
          simp only
          rw [getD_set, if_neg (fun hd => hjk hd.1)]
        · right; left; exact h
        · right; right; right; exact h
      split
      · -- twist after failed split trial
        rcases twist_getD_cases env cfg
            { s with lines := s.lines.set j (Graph.advance (s.lines.getD j default)),
                     rngIdx := s.rngIdx + 1 } j k hjk with h | h
        · left
          rw [h]
          simp only
          rw [getD_set, if_neg (fun hd => hjk hd.1)]
        · right; left; exact h
      · -- nothing fires, rng consumed
        left
        simp only
        rw [getD_set, if_neg (fun hd => hjk hd.1)]
    split
    · -- twist without split condition
      rcases twist_getD_cases env cfg
          { s with lines := s.lines.set j (Graph.advance (s.lines.getD j default)) }
          j k hjk with h | h
      · left
        rw [h]
        simp only
        rw [getD_set, if_neg (fun hd => hjk hd.1)]
      · right; left; exact h
    · -- nothing fires
      left
      simp only
      rw [getD_set, if_neg (fun hd => hjk hd.1)]

theorem split_self (env : Graph.Env) (cfg : Graph.Cfg) (s : Graph.GState) (j : ℕ)
    (hj : j < s.lines.length) :
    ((Graph.split env cfg s j).lines.getD j default).stepsSinceLastSplit = 0 ∧
    ((Graph.split env cfg s j).lines.getD j default).stepsSinceLastTwist =
      (s.lines.getD j default).stepsSinceLastTwist ∧
    ((Graph.split env cfg s j).lines.getD j default).direction =
      (s.lines.getD j default).direction ∧
    ((Graph.split env cfg s j).lines.getD j default).startNode = s.nodes.length ∧
    ((Graph.split env cfg s j).lines.getD j default).active =
      (s.lines.getD j default).active ∧
    ((Graph.split env cfg s j).lines.length = s.lines.length + 2 ∨
      (Graph.split env cfg s j).lines.length = s.lines.length + 3) ∧
    (Graph.split env cfg s j).nodes = s.nodes ++ [(s.lines.getD j default).endP] := by
  simp only [Graph.split, Graph.getNode, Graph.closeLine, Graph.mkLine]
  split
  · refine ⟨?_, ?_, ?_, ?_, ?_, ?_, ?_⟩
    · rw [getD_append_left _ _ _ _
          (by simp only [List.length_set, List.length_append, List.length_cons,
            List.length_nil]; omega),
        getD_append_left _ _ _ _
          (by simp only [List.length_set, List.length_append, List.length_cons,
            List.length_nil]; omega),
        getD_set,
        if_pos ⟨rfl, by simp only [List.length_append, List.length_cons,
          List.length_nil]; omega⟩]
    · rw [getD_append_left _ _ _ _
          (by simp only [List.length_set, List.length_append, List.length_cons,
            List.length_nil]; omega),
        getD_append_left _ _ _ _
          (by simp only [List.length_set, List.length_append, List.length_cons,
            List.length_nil]; omega),
        getD_set,
        if_pos ⟨rfl, by simp only [List.length_append, List.length_cons,
          List.length_nil]; omega⟩]
    · rw [getD_append_left _ _ _ _
          (by simp only [List.length_set, List.length_append, List.length_cons,
            List.length_nil]; omega),
        getD_append_left _ _ _ _
          (by simp only [List.length_set, List.length_append, List.length_cons,
            List.length_nil]; omega),
        getD_set,
        if_pos ⟨rfl, by simp only [List.length_append, List.length_cons,
          List.length_nil]; omega⟩]
    · rw [getD_append_left _ _ _ _
          (by simp only [List.length_set, List.length_append, List.length_cons,
            List.length_nil]; omega),
        getD_append_left _ _ _ _
          (by simp only [List.length_set, List.length_append, List.length_cons,
            List.length_nil]; omega),
        getD_set,
        if_pos ⟨rfl, by simp only [List.length_append, List.length_cons,
          List.length_nil]; omega⟩]
    · rw [getD_append_left _ _ _ _
          (by simp only [List.length_set, List.length_append, List.length_cons,
            List.length_nil]; omega),
        getD_append_left _ _ _ _
          (by simp only [List.length_set, List.length_append, List.length_cons,
            List.length_nil]; omega),
        getD_set,
        if_pos ⟨rfl, by simp only [List.length_append, List.length_cons,
          List.length_nil]; omega⟩]
    · right
      simp only [List.length_append, List.length_set, List.length_cons, List.length_nil]
    · rfl
  · refine ⟨?_, ?_, ?_, ?_, ?_, ?_, ?_⟩
    · rw [getD_append_left _ _ _ _
          (by simp only [List.length_set, List.length_append, List.length_cons,
            List.length_nil]; omega),
        getD_set,
        if_pos ⟨rfl, by simp only [List.length_append, List.length_cons,
          List.length_nil]; omega⟩]
    · rw [getD_append_left _ _ _ _
          (by simp only [List.length_set, List.length_append, List.length_cons,
            List.length_nil]; omega),
        getD_set,
        if_pos ⟨rfl, by simp only [List.length_append, List.length_cons,
          List.length_nil]; omega⟩]
    · rw [getD_append_left _ _ _ _
          (by simp only [List.length_set, List.length_append, List.length_cons,
            List.length_nil]; omega),
        getD_set,
        if_pos ⟨rfl, by simp only [List.length_append, List.length_cons,
          List.length_nil]; omega⟩]
    · rw [getD_append_left _ _ _ _
          (by simp only [List.length_set, List.length_append, List.length_cons,
            List.length_nil]; omega),
        getD_set,
        if_pos ⟨rfl, by simp only [List.length_append, List.length_cons,
          List.length_nil]; omega⟩]
    · rw [getD_append_left _ _ _ _
          (by simp only [List.length_set, List.length_append, List.length_cons,
            List.length_nil]; omega),
        getD_set,
        if_pos ⟨rfl, by simp only [List.length_append, List.length_cons,
          List.length_nil]; omega⟩]
    · left
      simp only [List.length_append, List.length_set, List.length_cons, List.length_nil]
    · rfl

theorem twist_self (env : Graph.Env) (cfg : Graph.Cfg) (s : Graph.GState) (j : ℕ)
    (hj : j < s.lines.length) :
    ((Graph.twist env cfg s j).lines.getD j default).stepsSinceLastTwist = 0 ∧
    ((Graph.twist env cfg s j).lines.getD j default).stepsSinceLastSplit =
      (s.lines.getD j default).stepsSinceLastSplit ∧
    ((Graph.twist env cfg s j).lines.getD j default).startNode = s.nodes.length ∧
    ((Graph.twist env cfg s j).lines.getD j default).active =
      (s.lines.getD j default).active ∧
    (Graph.twist env cfg s j).lines.length = s.lines.length + 1 ∧
    (Graph.twist env cfg s j).rngIdx = s.rngIdx ∧
    (Graph.twist env cfg s j).nodes = s.nodes ++ [(s.lines.getD j default).endP] := by
  simp only [Graph.twist, Graph.getNode, Graph.closeLine, Graph.mkLine]
  refine ⟨?_, ?_, ?_, ?_, ?_, ?_, ?_⟩
  · rw [getD_set]
    rw [if_pos (show _ ∧ _ from ⟨rfl,
      (by simp only [List.length_append, List.length_cons, List.length_nil]; omega)⟩)]
  · rw [getD_set]
    rw [if_pos (show _ ∧ _ from ⟨rfl,
      (by simp only [List.length_append, List.length_cons, List.length_nil]; omega)⟩)]
  · rw [getD_set]
    rw [if_pos (show _ ∧ _ from ⟨rfl,
      (by simp only [List.length_append, List.length_cons, List.length_nil]; omega)⟩)]
  · rw [getD_set]
    rw [if_pos (show _ ∧ _ from ⟨rfl,
      (by simp only [List.length_append, List.length_cons, List.length_nil]; omega)⟩)]
  · simp only [List.length_set, List.length_append, List.length_cons, List.length_nil]
  · trivial
  · trivial

theorem growFold_counters (env : Graph.Env) (cfg : Graph.Cfg) (n : ℕ) :
    ∀ (js : List ℕ) (s : Graph.GState), (∀ j ∈ js, j < n) →
      (∀ k, n ≤ k → (s.lines.getD k default).active = true →
        (s.lines.getD k default).stepsSinceLastSplit = 0 ∧
        (s.lines.getD k default).stepsSinceLastTwist = 0) →
      ∀ k, n ≤ k →
        ((js.foldl (fun st j => Graph.grow env cfg st j) s).lines.getD k
            default).active = true →
        ((js.foldl (fun st j => Graph.grow env cfg st j) s).lines.getD k
            default).stepsSinceLastSplit = 0 ∧
        ((js.foldl (fun st j => Graph.grow env cfg st j) s).lines.getD k
            default).stepsSinceLastTwist = 0 := by
  intro js
  induction js with
  | nil => intro s _ hinv k hk hact2; exact hinv k hk hact2
  | cons j js ih =>
    intro s hjs hinv k hk hact2
    rw [List.foldl_cons] at hact2 ⊢
    refine ih (Graph.grow env cfg s j)
      (fun m hm => hjs m (List.mem_cons_of_mem _ hm)) ?_ k hk hact2
    intro m hm hactm
    have hjm : j ≠ m :=
      Nat.ne_of_lt (lt_of_lt_of_le (hjs j (List.mem_cons_self _ _)) hm)
    rcases grow_getD_cases env cfg s j m hjm with h | h | h | h
    · rw [h] at hactm ⊢
      exact hinv m hm hactm
    · rw [h] at hactm
      cases hactm
    · obtain ⟨h1, h2, h3⟩ := h
      rw [h3] at hactm
      obtain ⟨c1, c2⟩ := hinv m hm hactm
      rw [h1, h2]
      exact ⟨c1, c2⟩
    · exact h

theorem WF_mem_getD {s : Graph.GState} (hwf : Graph.WFState s) {other : Graph.LineR}
    (hmem : other ∈ s.lines) :
    other.id < s.lines.length ∧ s.lines.getD other.id default = other := by
  obtain ⟨k, hk, hval⟩ := List.mem_iff_getElem.mp hmem
  have hgd : s.lines.getD k default = other := by
    simp [List.getD_eq_getElem?_getD, List.getElem?_eq_getElem hk, hval]
  have hid : other.id = k := by
    have := hwf k hk
    rw [hgd] at this
    exact this
  rw [hid]
  exact ⟨hk, hgd⟩

theorem sAB_wf : Graph.WFState sAB := by
  intro k hk
  match k with
  | 0 => rfl
  | 1 => rfl
  | (n + 2) =>
    exact absurd hk (by simp only [sAB, List.length_cons, List.length_nil]; omega)

/-- Claim C3: within one simulation step, `update` grows only the lines that
existed when the step began, and each active line follows the priority chain
advance / intersect / boundary / split / twist.  Conjunct 1: a line spawned
during the step (index at or beyond the snapshot count) never advances within
it — `grow` increments the step counters of every line it grows, so an active
line whose counters are still zero after the step was not grown.  Conjunct 2:
a crossing preempts everything, registers exactly one node (the hit point)
and one appended line, and consumes no randomness.  Conjunct 3: with no
crossing, a tip beyond the radius closes the line at the tip, with no node
but the tip, no appended line, and no randomness.  Conjunct 4: with no
crossing and inside the radius, when the split distance threshold and the
random trial pass, the line restarts from a new node with the split counter
reset and the twist counter still incremented (twist skipped), the direction
unchanged, and one closed copy plus one or two branch lines appended.
Conjunct 5: when the split distance fails but the twist distance passes, the
line restarts from a new node with the twist counter reset, the split counter
still incremented, one appended line and no randomness consumed.  Conjunct 6:
when every test fails the step is the pure tip advance. -/
theorem claim_C3_step_order (env : Graph.Env) (cfg : Graph.Cfg) (s : Graph.GState) (j : ℕ)
    (hj : j < s.lines.length)
    (hact : (s.lines.getD j default).active = true) :
    (∀ k, s.lines.length ≤ k →
      ((Graph.updateStep env cfg s).lines.getD k default).active = true →
      ((Graph.updateStep env cfg s).lines.getD k default).stepsSinceLastSplit = 0 ∧
      ((Graph.updateStep env cfg s).lines.getD k default).stepsSinceLastTwist = 0) ∧
    (∀ hit : ℕ × Pt,
      (Graph.intersectsList
          { s with lines := s.lines.set j (Graph.advance (s.lines.getD j default)) }
          (Graph.advance (s.lines.getD j default))).head? = some hit →
      (Graph.grow env cfg s j).nodes = s.nodes ++ [hit.2] ∧
      (Graph.grow env cfg s j).lines.length = s.lines.length + 1 ∧
      (Graph.grow env cfg s j).rngIdx = s.rngIdx) ∧
    ((Graph.intersectsList
        { s with lines := s.lines.set j (Graph.advance (s.lines.getD j default)) }
        (Graph.advance (s.lines.getD j default))).head? = none →
      cfg.radius * cfg.radius <
        (Graph.advance (s.lines.getD j default)).endP.x *
            (Graph.advance (s.lines.getD j default)).endP.x +
          (Graph.advance (s.lines.getD j default)).endP.y *
            (Graph.advance (s.lines.getD j default)).endP.y →
      Graph.grow env cfg s j =
        { nodes := s.nodes ++ [(Graph.advance (s.lines.getD j default)).endP],
          lines := s.lines.set j
            { Graph.advance (s.lines.getD j default) with
                endNode := some s.nodes.length, active := false },
          rngIdx := s.rngIdx }) ∧
    ((Graph.intersectsList
        { s with lines := s.lines.set j (Graph.advance (s.lines.getD j default)) }
        (Graph.advance (s.lines.getD j default))).head? = none →
      ¬(cfg.radius * cfg.radius <
        (Graph.advance (s.lines.getD j default)).endP.x *
            (Graph.advance (s.lines.getD j default)).endP.x +
          (Graph.advance (s.lines.getD j default)).endP.y *
            (Graph.advance (s.lines.getD j default)).endP.y) →
      cfg.minDistance <
        ((Graph.advance (s.lines.getD j default)).stepsSinceLastSplit : ℚ) * cfg.dt →
      env.rand s.rngIdx < cfg.probability →
      ((Graph.grow env cfg s j).lines.getD j default).stepsSinceLastSplit = 0 ∧
      ((Graph.grow env cfg s j).lines.getD j default).stepsSinceLastTwist =
        (s.lines.getD j default).stepsSinceLastTwist + 1 ∧
      ((Graph.grow env cfg s j).lines.getD j default).direction =
        (s.lines.getD j default).direction ∧
      ((Graph.grow env cfg s j).lines.getD j default).startNode = s.nodes.length ∧
      ((Graph.grow env cfg s j).lines.getD j default).active = true ∧
      ((Graph.grow env cfg s j).lines.length = s.lines.length + 2 ∨
        (Graph.grow env cfg s j).lines.length = s.lines.length + 3) ∧
      (Graph.grow env cfg s j).nodes =
        s.nodes ++ [(Graph.advance (s.lines.getD j default)).endP]) ∧
    ((Graph.intersectsList
        { s with lines := s.lines.set j (Graph.advance (s.lines.getD j default)) }
        (Graph.advance (s.lines.getD j default))).head? = none →
      ¬(cfg.radius * cfg.radius <
        (Graph.advance (s.lines.getD j default)).endP.x *
            (Graph.advance (s.lines.getD j default)).endP.x +
          (Graph.advance (s.lines.getD j default)).endP.y *
            (Graph.advance (s.lines.getD j default)).endP.y) →
      ¬(cfg.minDistance <
        ((Graph.advance (s.lines.getD j default)).stepsSinceLastSplit : ℚ) * cfg.dt) →
      cfg.minTwistDistance <
        ((Graph.advance (s.lines.getD j default)).stepsSinceLastTwist : ℚ) * cfg.dt →
      ((Graph.grow env cfg s j).lines.getD j default).stepsSinceLastTwist = 0 ∧
      ((Graph.grow env cfg s j).lines.getD j default).stepsSinceLastSplit =
        (s.lines.getD j default).stepsSinceLastSplit + 1 ∧
      ((Graph.grow env cfg s j).lines.getD j default).startNode = s.nodes.length ∧
      ((Graph.grow env cfg s j).lines.getD j default).active = true ∧
      (Graph.grow env cfg s j).lines.length = s.lines.length + 1 ∧
      (Graph.grow env cfg s j).rngIdx = s.rngIdx ∧
      (Graph.grow env cfg s j).nodes =
        s.nodes ++ [(Graph.advance (s.lines.getD j default)).endP]) ∧
    ((Graph.intersectsList
        { s with lines := s.lines.set j (Graph.advance (s.lines.getD j default)) }
        (Graph.advance (s.lines.getD j default))).head? = none →
      ¬(cfg.radius * cfg.radius <
        (Graph.advance (s.lines.getD j default)).endP.x *
            (Graph.advance (s.lines.getD j default)).endP.x +
          (Graph.advance (s.lines.getD j default)).endP.y *
            (Graph.advance (s.lines.getD j default)).endP.y) →
      ¬(cfg.minDistance <
        ((Graph.advance (s.lines.getD j default)).stepsSinceLastSplit : ℚ) * cfg.dt) →
      ¬(cfg.minTwistDistance <
        ((Graph.advance (s.lines.getD j default)).stepsSinceLastTwist : ℚ) * cfg.dt) →
      Graph.grow env cfg s j =
        { s with lines := s.lines.set j (Graph.advance (s.lines.getD j default)) }) := by
  refine ⟨?_, ?_, ?_, ?_, ?_, ?_⟩
  · simp only [Graph.updateStep]
    refine growFold_counters env cfg s.lines.length (List.range s.lines.length) s
      (fun m hm => List.mem_range.mp hm) ?_
    intro k hk hactk
    rw [getD_of_le _ _ _ hk] at hactk
    exact absurd hactk (by decide)
  · intro hit hhit
    simp only [Graph.grow]
    rw [if_neg (by rw [hact]; simp)]
    simp only [hhit, Graph.getNode, Graph.closeLine, Graph.mkLine]
    refine ⟨?_, ?_, ?_⟩
    · trivial
    · simp only [List.length_set, List.length_append, List.length_cons, List.length_nil]
    · trivial
  · intro hnone hrad
    simp only [Graph.grow]
    rw [if_neg (by rw [hact]; simp)]
    simp only [hnone]
    rw [if_pos hrad]
    simp only [Graph.getNode, Graph.closeLine]
    rw [List.set_set, getD_concat_length]
  · intro hnone hrad hdist hprob
    simp only [Graph.grow]
    rw [if_neg (by rw [hact]; simp)]
    simp only [hnone]
    rw [if_neg hrad, if_pos hdist, if_pos hprob]
    have hj2 : j <
        (Graph.GState.mk s.nodes
          (s.lines.set j (Graph.advance (s.lines.getD j default)))
          (s.rngIdx + 1)).lines.length := by
      simpa [List.length_set] using hj
    obtain ⟨c1, c2, c3, c4, c5, c6, c7⟩ := split_self env cfg
      (Graph.GState.mk s.nodes
        (s.lines.set j (Graph.advance (s.lines.getD j default)))
        (s.rngIdx + 1)) j hj2
    rw [getD_set, if_pos ⟨rfl, hj⟩] at c2 c3 c5 c7
    refine ⟨c1, ?_, ?_, c4, ?_, ?_, c7⟩
    · rw [c2]
      simp [Graph.advance]
    · rw [c3]
      simp [Graph.advance]
    · rw [c5]
      simpa [Graph.advance] using hact
    · simpa [List.length_set] using c6
  · intro hnone hrad hdist htw
    simp only [Graph.grow]
    rw [if_neg (by rw [hact]; simp)]
    simp only [hnone]
    rw [if_neg hrad, if_neg hdist, if_pos htw]
    have hj2 : j <
        (Graph.GState.mk s.nodes
          (s.lines.set j (Graph.advance (s.lines.getD j default)))
          s.rngIdx).lines.length := by
      simpa [List.length_set] using hj
    obtain ⟨c1, c2, c3, c4, c5, c6, c7⟩ := twist_self env cfg
      (Graph.GState.mk s.nodes
        (s.lines.set j (Graph.advance (s.lines.getD j default)))
        s.rngIdx) j hj2
    rw [getD_set, if_pos ⟨rfl, hj⟩] at c2 c4 c7
    refine ⟨c1, ?_, c3, ?_, ?_, c6, c7⟩
    · rw [c2]
      simp [Graph.advance]
    · rw [c4]
      simpa [Graph.advance] using hact
    · simpa [List.length_set] using c5
  · intro hnone hrad hdist htw
    simp only [Graph.grow]
    rw [if_neg (by rw [hact]; simp)]
    simp only [hnone]
    rw [if_neg hrad, if_neg hdist, if_neg htw]

theorem claim_C3_witness :
    0 < sC3.lines.length ∧ (sC3.lines.getD 0 default).active = true ∧
    (Graph.intersectsList
        { sC3 with lines := sC3.lines.set 0 (Graph.advance (sC3.lines.getD 0 default)) }
        (Graph.advance (sC3.lines.getD 0 default))).head? = none ∧
    ¬(cfgW.radius * cfgW.radius <
      (Graph.advance (sC3.lines.getD 0 default)).endP.x *
          (Graph.advance (sC3.lines.getD 0 default)).endP.x +
        (Graph.advance (sC3.lines.getD 0 default)).endP.y *
          (Graph.advance (sC3.lines.getD 0 default)).endP.y) ∧
    ¬(cfgW.minDistance <
      ((Graph.advance (sC3.lines.getD 0 default)).stepsSinceLastSplit : ℚ) * cfgW.dt) ∧
    ¬(cfgW.minTwistDistance <
      ((Graph.advance (sC3.lines.getD 0 default)).stepsSinceLastTwist : ℚ) * cfgW.dt) ∧
    Graph.grow envW cfgW sC3 0 =
      { sC3 with lines := sC3.lines.set 0 (Graph.advance (sC3.lines.getD 0 default)) } :=
  ⟨by decide, by decide, by decide, by decide, by decide, by decide,
    (claim_C3_step_order envW cfgW sC3 0 (by decide) (by decide)).2.2.2.2.2
      (by decide) (by decide) (by decide) (by decide)⟩

/-- Claim C4: when the advancing tip segment of line `j` crosses other lines,
the head of the distance-sorted crossing list wins — it is a different line,
its hit point is nearest to the growing line start — a node is created at
the crossing point, line `j` is closed at that node, and the crossed line
`hit.1` is split: a closed piece from its original start node to the new node
is appended at the end of the line array, while the record at `hit.1` itself
becomes the continuation, restarting at the new node with direction (and all
other fields) kept. -/
theorem claim_C4_intersection_resolution
    (env : Graph.Env) (cfg : Graph.Cfg) (s : Graph.GState) (j : ℕ) (hit : ℕ × Pt)
    (hwf : Graph.WFState s)
    (hj : j < s.lines.length)
    (hact : (s.lines.getD j default).active = true)
    (hhit : (Graph.intersectsList
        { s with lines := s.lines.set j (Graph.advance (s.lines.getD j default)) }
        (Graph.advance (s.lines.getD j default))).head? = some hit) :
    hit.1 ≠ j ∧ hit.1 < s.lines.length ∧
    (∀ q ∈ Graph.intersectsList
        { s with lines := s.lines.set j (Graph.advance (s.lines.getD j default)) }
        (Graph.advance (s.lines.getD j default)),
      Graph.distSq (s.lines.getD j default).start hit.2 ≤
        Graph.distSq (s.lines.getD j default).start q.2) ∧
    (Graph.grow env cfg s j).nodes = s.nodes ++ [hit.2] ∧
    (Graph.grow env cfg s j).lines.length = s.lines.length + 1 ∧
    (Graph.grow env cfg s j).lines.getD j default =
      { Graph.advance (s.lines.getD j default) with
          endNode := some s.nodes.length, endP := hit.2, active := false } ∧
    ((Graph.grow env cfg s j).lines.getD s.lines.length default).startNode =
      (s.lines.getD hit.1 default).startNode ∧
    ((Graph.grow env cfg s j).lines.getD s.lines.length default).endNode =
      some s.nodes.length ∧
    ((Graph.grow env cfg s j).lines.getD s.lines.length default).endP = hit.2 ∧
    ((Graph.grow env cfg s j).lines.getD s.lines.length default).active = false ∧
    (Graph.grow env cfg s j).lines.getD hit.1 default =
      { s.lines.getD hit.1 default with startNode := s.nodes.length, start := hit.2 } := by
  have hmem := head?_mem hhit
  obtain ⟨other, homem, hoid, hneid, hseg⟩ := intersectsList_mem hmem
  have hwf1 := WFState_set_advance hwf j
  have hlid : (Graph.advance (s.lines.getD j default)).id = j := by
    simpa [Graph.advance] using hwf j hj
  have hne : hit.1 ≠ j := by
    rw [← hoid]
    intro hcontra
    exact hneid (by rw [hcontra, hlid])
  obtain ⟨hlt1, hget1⟩ := WF_mem_getD hwf1 homem
  simp only [List.length_set] at hlt1
  rw [hoid] at hlt1 hget1
  have hgdo : ∀ a : Graph.LineR,
      (s.lines.set j a).getD hit.1 default = s.lines.getD hit.1 default := by
    intro a
    rw [getD_set, if_neg (fun hc => hne hc.1.symm)]
  have hnel : hit.1 ≠ s.lines.length := Nat.ne_of_lt hlt1
  refine ⟨hne, hlt1, ?_, ?_, ?_, ?_, ?_, ?_, ?_, ?_, ?_⟩
  · intro q hq
    have := intersectsList_head_min hhit q hq
    simpa [Graph.advance] using this
  · simp only [Graph.grow]
    rw [if_neg (by rw [hact]; simp)]
    simp only [hhit, Graph.getNode]
  · simp only [Graph.grow]
    rw [if_neg (by rw [hact]; simp)]
    simp only [hhit, Graph.getNode]
    simp [List.length_set]
  · simp only [Graph.grow]
    rw [if_neg (by rw [hact]; simp)]
    simp only [hhit, Graph.getNode, Graph.closeLine]
    rw [getD_set, if_neg (fun hc => hne hc.1)]
    rw [getD_append_left _ _ _ _ (by simpa [List.length_set] using hj)]
    rw [List.set_set, getD_set, if_pos ⟨rfl, by simpa [List.length_set] using hj⟩]
    simp [getD_concat_length]
  · simp only [Graph.grow]
    rw [if_neg (by rw [hact]; simp)]
    simp only [hhit, Graph.getNode, Graph.closeLine, Graph.mkLine]
    rw [getD_set, if_neg (fun hc => hnel hc.1)]
    rw [getD_concat_of_length (by simp [List.length_set])]
    simp only [List.set_set, hgdo]
  · simp only [Graph.grow]
    rw [if_neg (by rw [hact]; simp)]
    simp only [hhit, Graph.getNode, Graph.closeLine, Graph.mkLine]
    rw [getD_set, if_neg (fun hc => hnel hc.1)]
    rw [getD_concat_of_length (by simp [List.length_set])]
  · simp only [Graph.grow]
    rw [if_neg (by rw [hact]; simp)]
    simp only [hhit, Graph.getNode, Graph.closeLine, Graph.mkLine]
    rw [getD_set, if_neg (fun hc => hnel hc.1)]
    rw [getD_concat_of_length (by simp [List.length_set])]
    simp [getD_concat_length]
  · simp only [Graph.grow]
    rw [if_neg (by rw [hact]; simp)]
    simp only [hhit, Graph.getNode, Graph.closeLine, Graph.mkLine]
    rw [getD_set, if_neg (fun hc => hnel hc.1)]
    rw [getD_concat_of_length (by simp [List.length_set])]
  · simp only [Graph.grow]
    rw [if_neg (by rw [hact]; simp)]
    simp only [hhit, Graph.getNode, Graph.closeLine, Graph.mkLine]
    rw [getD_set, if_pos ⟨rfl, by simp [List.length_set]; omega⟩]
    simp only [List.set_set, hgdo]

theorem claim_C4_witness :
    Graph.WFState sAB ∧ 0 < sAB.lines.length ∧
    (sAB.lines.getD 0 default).active = true ∧
    (Graph.intersectsList
        { sAB with lines := sAB.lines.set 0 (Graph.advance (sAB.lines.getD 0 default)) }
        (Graph.advance (sAB.lines.getD 0 default))).head? =
      some (1, ⟨1 / 4, 0⟩) ∧
    ((1 : ℕ) ≠ 0 ∧ 1 < sAB.lines.length ∧
      (∀ q ∈ Graph.intersectsList
          { sAB with lines := sAB.lines.set 0 (Graph.advance (sAB.lines.getD 0 default)) }
          (Graph.advance (sAB.lines.getD 0 default)),
        Graph.distSq (sAB.lines.getD 0 default).start (⟨1 / 4, 0⟩ : Pt) ≤
          Graph.distSq (sAB.lines.getD 0 default).start q.2) ∧
      (Graph.grow envW cfgW sAB 0).nodes = sAB.nodes ++ [⟨1 / 4, 0⟩] ∧
      (Graph.grow envW cfgW sAB 0).lines.length = sAB.lines.length + 1 ∧
      (Graph.grow envW cfgW sAB 0).lines.getD 0 default =
        { Graph.advance (sAB.lines.getD 0 default) with
            endNode := some sAB.nodes.length, endP := ⟨1 / 4, 0⟩, active := false } ∧
      ((Graph.grow envW cfgW sAB 0).lines.getD sAB.lines.length default).startNode =
        (sAB.lines.getD 1 default).startNode ∧
      ((Graph.grow envW cfgW sAB 0).lines.getD sAB.lines.length default).endNode =
        some sAB.nodes.length ∧
      ((Graph.grow envW cfgW sAB 0).lines.getD sAB.lines.length default).endP =
        (⟨1 / 4, 0⟩ : Pt) ∧
      ((Graph.grow envW cfgW sAB 0).lines.getD sAB.lines.length default).active = false ∧
      (Graph.grow envW cfgW sAB 0).lines.getD 1 default =
        { sAB.lines.getD 1 default with
            startNode := sAB.nodes.length, start := ⟨1 / 4, 0⟩ }) :=
  ⟨sAB_wf, by decide, by decide, by decide,
    claim_C4_intersection_resolution envW cfgW sAB 0 (1, ⟨1 / 4, 0⟩) sAB_wf (by decide) (by decide)
      (by decide)⟩
